import Mathlib

/-!
Verification of the CSV inventory upload endpoint (`functions/upload.ts`,
`onRequestPost`): a shallow embedding of the handler's pipeline —
row normalization, chunked brand/SKU/batch resolution, global batch
upsert, chunked inventory insert, and outcome reporting — together with
theorems about the claims of the specification.

The external store (Supabase/PostgREST) is modelled as a family of
oracles (`Env`): each outbound call site of the handler is a function
from the request content to a response.  The handler logic itself is
translated directly from the source.
-/

namespace Upload

/-- Substring containment as a proposition: `pat` occurs inside `s`. -/
def SubstrOf (pat s : String) : Prop := ∃ pre post : String, s = pre ++ pat ++ post

/-- Source `truncate`: `s && s.length > n ? s.slice(0, n) + "…" : s`. -/
def truncate (s : String) (n : Nat) : String :=
  if s.length > n then (s.take n).push '…' else s

/-- Characters of a string with leading and trailing whitespace removed
(the model of JS `String.prototype.trim`). -/
def trimChars (l : List Char) : List Char :=
  ((l.dropWhile Char.isWhitespace).reverse.dropWhile Char.isWhitespace).reverse

/-- JS `s.trim()`. -/
def jsTrim (s : String) : String := ⟨trimChars s.data⟩

/-- JS `s.toUpperCase()`, modelled per character. -/
def jsToUpper (s : String) : String := ⟨s.data.map Char.toUpper⟩

/-- JS `s.toLowerCase()`, modelled per character. -/
def jsToLower (s : String) : String := ⟨s.data.map Char.toLower⟩

/-- Split a character list at a separator character. -/
def splitOnCharAux (sep : Char) : List Char → List Char → List (List Char)
  | [], acc => [acc.reverse]
  | c :: cs, acc =>
    if c = sep then acc.reverse :: splitOnCharAux sep cs []
    else splitOnCharAux sep cs (c :: acc)

/-- Split a string at the slashes (the shape of the date regex groups). -/
def splitSlash (s : String) : List String :=
  (splitOnCharAux '/' s.data []).map fun l => ⟨l⟩

/-- One substring-search step list: does `pat` occur in `l`
(JS `RegExp.prototype.test` with a literal pattern). -/
def containsSubAux (pat : List Char) : List Char → Bool
  | [] => pat.isEmpty
  | c :: t => pat.isPrefixOf (c :: t) || containsSubAux pat t

/-- Substring containment test on strings. -/
def containsSubstr (s pat : String) : Bool := containsSubAux pat.data s.data

/-- Source `normKey`: `(s ?? "").trim().toUpperCase()` — normalizes brand keys. -/
def normKey (s : String) : String := jsToUpper (jsTrim s)

/-- JS `String.prototype.padStart(2, "0")` as used on date components. -/
def padStart2 (s : String) : String :=
  if s.length < 2 then "0" ++ s else s

/-- Decide whether every character of `s` is a decimal digit and
`s` is nonempty of length within the given bounds. -/
def digitsLen (s : String) (lo hi : Nat) : Bool :=
  s.toList.all (·.isDigit) && lo ≤ s.length && s.length ≤ hi

/-- The regex `^(\d{1,2})\/(\d{1,2})\/(\d{4})$` of `normalizeDate`:
match `mm/dd/yyyy` and return the three groups. -/
def matchMDY (t : String) : Option (String × String × String) :=
  match splitSlash t with
  | [a, b, c] =>
    if digitsLen a 1 2 && digitsLen b 1 2 && digitsLen c 4 4 then
      some (a, b, c)
    else none
  | _ => none

/-- Source `normalizeDate`.  The JS `new Date(t)` fallback is passed in as an
oracle `jsDate`: `jsDate t = some iso` models a successful parse followed by
`toISOString().slice(0, 10)` (a 10-character string), `none` models an
invalid date, in which case the trimmed raw string is passed through. -/
def normalizeDate (jsDate : String → Option String) (v : String) : String :=
  if v = "" then ""
  else
    let t := jsTrim v
    match matchMDY t with
    | some (mm, dd, yyyy) => yyyy ++ "-" ++ padStart2 mm ++ "-" ++ padStart2 dd
    | none =>
      match jsDate t with
      | some iso => iso
      | none => t

/-- Leading decimal digits of a character list (the digit span `parseInt` reads). -/
def leadDigits : List Char → List Char
  | [] => []
  | c :: cs => if c.isDigit then c :: leadDigits cs else []

/-- Value of a digit list, most significant first; `none` when empty
(JS `parseInt` yields `NaN` when no digits are present). -/
def digitsVal : List Char → Option Nat
  | [] => none
  | l => some (l.foldl (fun a c => a * 10 + (c.toNat - 48)) 0)

/-- JS `parseInt(s, 10)`: skip whitespace, optional sign, leading digits. -/
def parseIntJS (s : String) : Option Int :=
  match (jsTrim s).toList with
  | '-' :: rest => (digitsVal (leadDigits rest)).map (fun n => -(n : Int))
  | '+' :: rest => (digitsVal (leadDigits rest)).map (fun n => (n : Int))
  | cs => (digitsVal (leadDigits cs)).map (fun n => (n : Int))

/-- Source `normalizeInt`: empty/absent → `none`; otherwise `parseInt`,
rejecting `NaN`. -/
def normalizeInt (v : Option String) : Option Int :=
  match v with
  | none => none
  | some s => if s = "" then none else parseIntJS s

/-- Fuel-driven worker for `chunksOf` (the fuel dominates the list length,
so the recursion is structural). -/
def chunksOfAux (C : Nat) : Nat → List α → List (List α)
  | _, [] => []
  | 0, _ :: _ => []
  | fuel + 1, x :: xs =>
    if C = 0 then []
    else (x :: xs).take C :: chunksOfAux C fuel ((x :: xs).drop C)

/-- The chunking of the loops `for (let i = 0; i < n; i += C) slice(i, i + C)`:
split a list into consecutive chunks of size `C`. -/
def chunksOf (C : Nat) (l : List α) : List (List α) := chunksOfAux C l.length l

theorem chunksOfAux_eq (C : Nat) :
    (fuel : Nat) → (l : List α) → l.length ≤ fuel →
    chunksOfAux C fuel l = chunksOfAux C l.length l
  | 0, [], _ => rfl
  | 0, _ :: _, h => by cases h
  | fuel + 1, [], _ => rfl
  | fuel + 1, x :: xs, h => by
    by_cases hC : C = 0
    · cases hxs : xs.length with
      | zero => rw [chunksOfAux, if_pos hC]; rw [List.length_cons, hxs, chunksOfAux, if_pos hC]
      | succ m => rw [chunksOfAux, if_pos hC]; rw [List.length_cons, hxs, chunksOfAux, if_pos hC]
    · have hC1 : 1 ≤ C := Nat.one_le_iff_ne_zero.mpr hC
      have hd : ((x :: xs).drop C).length ≤ fuel := by
        rw [List.length_drop]
        have hlen : (x :: xs).length ≤ fuel + 1 := h
        omega
      have hd2 : ((x :: xs).drop C).length ≤ xs.length := by
        rw [List.length_drop]
        simp only [List.length_cons]
        omega
      rw [chunksOfAux, if_neg hC]
      rw [List.length_cons, chunksOfAux, if_neg hC]
      rw [chunksOfAux_eq C fuel _ hd, chunksOfAux_eq C xs.length _ hd2]

theorem chunksOf_cons (C : Nat) (hC : C ≠ 0) (x : α) (xs : List α) :
    chunksOf C (x :: xs) = (x :: xs).take C :: chunksOf C ((x :: xs).drop C) := by
  rw [chunksOf, List.length_cons, chunksOfAux, if_neg hC, chunksOf]
  rw [chunksOfAux_eq C xs.length _ (by rw [List.length_drop]; simp only [List.length_cons]; omega)]

/-- JS `[...new Set(arr)]`: deduplicate keeping first occurrences. -/
def dedupFirst : List String → List String
  | [] => []
  | x :: xs => x :: (dedupFirst xs).filter (fun y => y ≠ x)

/-- A JS `Map<String, V>`, modelled extensionally as a lookup function. -/
def MapStr (V : Type) := String → Option V

/-- `Map.set(k, v)`. -/
def mapSet (m : MapStr V) (k : String) (v : V) : MapStr V :=
  fun q => if q = k then some v else m q

/-- The empty map. -/
def mapEmpty : MapStr V := fun _ => none

/-- The loops `for (const b of page) map.set(key(b), b)`: build a lookup
map from a list, later entries overriding earlier ones. -/
def buildMap (key : V → String) (l : List V) : MapStr V :=
  l.foldl (fun m v => mapSet m (key v) v) mapEmpty

/-! ## Tunables (source constants) -/

/-- Source `INVENTORY_CHUNK_SIZE`. -/
def INVENTORY_CHUNK_SIZE : Nat := 300

/-- Source `MAX_SKIPPED_RETURN`. -/
def MAX_SKIPPED_RETURN : Nat := 200

/-- Source `BRAND_IN_CHUNK`. -/
def BRAND_IN_CHUNK : Nat := 60

/-- Source `SKU_PAIR_CHUNK`. -/
def SKU_PAIR_CHUNK : Nat := 40

/-- Source `BATCH_IN_CHUNK`. -/
def BATCH_IN_CHUNK : Nat := 60

/-! ## Row types (source `RawRow`, `NormalizedRow` and their derivatives) -/

/-- Source `RawRow` together with the alias fields consulted by
`remapAliases`.  Absent or `null` JS fields are `none`. -/
structure RawRow where
  sku_code : Option String := none
  sku : Option String := none
  code : Option String := none
  brand_name : Option String := none
  brand : Option String := none
  brandname : Option String := none
  batch_no : Option String := none
  batch : Option String := none
  batchno : Option String := none
  barcode : Option String := none
  code128 : Option String := none
  date_in : Option String := none
  date : Option String := none
  datein : Option String := none
  warranty_months : Option String := none
  warranty : Option String := none
  warranty_month : Option String := none
  warrantyMonths : Option String := none
  deriving Repr, DecidableEq

/-- Result shape of `remapAliases`. -/
structure RemappedRow where
  sku_code : String
  brand_name : String
  batch_no : String
  barcode : String
  date_in : String
  warranty_months : Option String
  deriving Repr, DecidableEq

/-- JS `a ?? b ?? ""` over optional strings. -/
def coalesce3 (a b c : Option String) : String :=
  (a.orElse fun _ => (b.orElse fun _ => c)).getD ""

/-- Source `remapAliases`. -/
def remapAliases (r : RawRow) : RemappedRow :=
  { sku_code := coalesce3 r.sku_code r.sku r.code
    brand_name := coalesce3 r.brand_name r.brand r.brandname
    batch_no := coalesce3 r.batch_no r.batch r.batchno
    barcode := coalesce3 r.barcode r.code128 none
    date_in := coalesce3 r.date_in r.date r.datein
    warranty_months :=
      (r.warranty_months.orElse fun _ =>
        (r.warranty.orElse fun _ =>
          (r.warranty_month.orElse fun _ => r.warrantyMonths))) }

/-- Source `NormalizedRow` (`__rowIndex` is the original index). -/
structure NormalizedRow where
  sku_code : String
  brand_name : String
  batch_no : String
  barcode : String
  date_in : String
  warranty_months : Option Int
  rowIndex : Nat
  deriving Repr, DecidableEq

/-- The body of the normalization loop for one input row at index `i`. -/
def normalizeOne (jsDate : String → Option String) (i : Nat) (raw : RawRow) :
    NormalizedRow :=
  let r := remapAliases raw
  { sku_code := jsTrim r.sku_code
    brand_name := jsTrim r.brand_name
    batch_no := jsTrim r.batch_no
    barcode := jsTrim r.barcode
    date_in := normalizeDate jsDate r.date_in
    warranty_months := normalizeInt r.warranty_months
    rowIndex := i }

/-- The validation test of the normalization loop: some required field is
empty after normalization. -/
def missingRequired (row : NormalizedRow) : Bool :=
  row.sku_code = "" || row.brand_name = "" || row.batch_no = "" ||
    row.barcode = "" || row.date_in = ""

/-- A skipped-row diagnostic: the business fields of the row spread together
with the `reason` string (source `skipped.push({...row, reason})`). -/
structure SkipRow where
  sku_code : String
  brand_name : String
  batch_no : String
  barcode : String
  date_in : String
  reason : String
  deriving Repr, DecidableEq

/-- Project a normalized row into a skip diagnostic. -/
def skipOfNorm (r : NormalizedRow) (reason : String) : SkipRow :=
  ⟨r.sku_code, r.brand_name, r.batch_no, r.barcode, r.date_in, reason⟩

/-- The skip reason of the required-field validation. -/
def missingReason : String :=
  "❌ Missing required field(s). Required: sku_code, brand_name, batch_no, barcode, date_in"

/-- The normalization loop (`phase = "normalize_rows"`): returns the rows
that pass validation and the skip diagnostics of those that do not. -/
def normalizeRows (jsDate : String → Option String) :
    Nat → List RawRow → List NormalizedRow × List SkipRow
  | _, [] => ([], [])
  | i, raw :: rest =>
    let row := normalizeOne jsDate i raw
    if missingRequired row then
      ((normalizeRows jsDate (i + 1) rest).1,
        skipOfNorm row missingReason :: (normalizeRows jsDate (i + 1) rest).2)
    else
      (row :: (normalizeRows jsDate (i + 1) rest).1, (normalizeRows jsDate (i + 1) rest).2)

/-! ## Store entities and the oracle environment -/

/-- Brand entity (`select=id,name`). -/
structure Brand where
  id : String
  name : String
  deriving Repr, DecidableEq

/-- SKU entity (`select=id,sku_code,brand_id`, source type `SkuRow`). -/
structure SkuRow where
  id : String
  sku_code : String
  brand_id : String
  deriving Repr, DecidableEq

/-- Batch entity (`select=id,sku_id,batch_no`). -/
structure BatchRow where
  id : String
  sku_id : String
  batch_no : String
  deriving Repr, DecidableEq

/-- A row echoed back by the inventory insert (`return=representation`);
only its `barcode` is consulted. -/
structure Echo where
  barcode : String
  deriving Repr, DecidableEq

/-- A parsed JSON response body: an array of entities, or some non-array
value (`Array.isArray` distinguishes the two). -/
inductive JsonArr (α : Type) where
  | arr (l : List α)
  | other
  deriving Repr, DecidableEq

/-- `Array.isArray(page) ? page : []`. -/
def JsonArr.toList : JsonArr α → List α
  | .arr l => l
  | .other => []

/-- A raw `fetch` response for the call sites that inspect `ok`/`status`/text
inline (the batch upsert). -/
structure UpsertRes where
  ok : Bool
  status : Nat
  text : String
  deriving Repr, DecidableEq

/-- Rows of the final insert payload (source `inventoryPayload` items). -/
structure InvRow where
  sku_code : String
  brand_name : String
  batch_no : String
  sku_id : String
  batch_id : String
  barcode : String
  date_in : String
  warranty_months : Option Int
  deriving Repr, DecidableEq

/-- Batch creation payload entries (`missingBatchPayload` items; `date_in`
is spread in only when truthy). -/
structure BatchPayload where
  sku_id : String
  batch_no : String
  date_in : Option String
  deriving Repr, DecidableEq

/-- The external world of one request: the JS `Date` parser and one oracle
per outbound call site of the handler.  Each oracle maps the request
content (the chunk of keys, or the payload) to the store's response;
`Except.error` models a non-`ok` HTTP response (whose text the
`fetchJson` helper throws). -/
structure Env where
  hasKey : Bool
  jsDate : String → Option String
  brandPage : List String → Except String (JsonArr Brand)
  skuPage : List String → Except String (JsonArr SkuRow)
  batchPage : List String → Except String (JsonArr BatchRow)
  upsert : List BatchPayload → UpsertRes
  refetchPage : List String → Except String (JsonArr BatchRow)
  insert : List InvRow → Except String (JsonArr Echo)

/-- One chunked preload loop: split `keys` into chunks of size `C`, query
each chunk, and concatenate the pages (`if (Array.isArray(page))
xs.push(...page)`); a failing query throws (`Except.error`). -/
def fetchPages (q : List String → Except String (JsonArr α)) (C : Nat)
    (keys : List String) : Except String (List α) :=
  (chunksOf C keys).foldlM (fun acc part => (q part).map (fun page => acc ++ page.toList)) []

/-! ## Resolution phases -/

/-- A normalized row with its resolved `brand_id` attached. -/
structure BrandRow extends NormalizedRow where
  brand_id : String
  deriving Repr, DecidableEq

/-- A row with both `brand_id` and `sku_id` resolved (source `usableRows`). -/
structure UsableRow extends BrandRow where
  sku_id : String
  deriving Repr, DecidableEq

/-- Project a brand-resolved row into a skip diagnostic. -/
def skipOfBrand (r : BrandRow) (reason : String) : SkipRow :=
  skipOfNorm r.toNormalizedRow reason

/-- Project an inventory payload row into a skip diagnostic. -/
def skipOfInv (r : InvRow) (reason : String) : SkipRow :=
  ⟨r.sku_code, r.brand_name, r.batch_no, r.barcode, r.date_in, reason⟩

/-- The `Brand not found` skip reason. -/
def brandNotFoundReason (name : String) : String :=
  "❌ Brand not found: \"" ++ name ++ "\""

/-- The `SKU not found` skip reason. -/
def skuNotFoundReason (brand_name sku_code : String) : String :=
  "❌ SKU not found for (brand_name=\"" ++ brand_name ++
    "\", sku_code=\"" ++ sku_code ++ "\")"

/-- The `Batch not resolved` skip reason. -/
def batchNotResolvedReason (batch_no : String) : String :=
  "❌ Batch not resolved for (batch_no=\"" ++ batch_no ++ "\")"

/-- The loop attaching `brand_id` to rows: a row whose (normalized) brand
name is not in the brand map is skipped with reason `Brand not found`. -/
def attachBrands (bm : MapStr Brand) : List NormalizedRow → List BrandRow × List SkipRow
  | [] => ([], [])
  | r :: rest =>
    match bm (normKey r.brand_name) with
    | none =>
      ((attachBrands bm rest).1,
        skipOfNorm r (brandNotFoundReason r.brand_name) :: (attachBrands bm rest).2)
    | some b =>
      ({ toNormalizedRow := r, brand_id := b.id } :: (attachBrands bm rest).1,
        (attachBrands bm rest).2)

/-- The composite SKU lookup key `brand_id┃sku_code`. -/
def pairKey (brand_id sku_code : String) : String := brand_id ++ "┃" ++ sku_code

/-- The key of a SKU entity in the SKU map. -/
def skuKeyOf (s : SkuRow) : String := pairKey s.brand_id s.sku_code

/-- The loop validating SKUs and attaching `sku_id`: a row with no entry
under `(brand_id, sku_code)` is skipped with reason `SKU not found`. -/
def attachSkus (sm : MapStr SkuRow) : List BrandRow → List UsableRow × List SkipRow
  | [] => ([], [])
  | r :: rest =>
    match sm (pairKey r.brand_id r.sku_code) with
    | none =>
      ((attachSkus sm rest).1,
        skipOfBrand r (skuNotFoundReason r.brand_name r.sku_code) ::
          (attachSkus sm rest).2)
    | some s =>
      ({ toBrandRow := r, sku_id := s.id } :: (attachSkus sm rest).1,
        (attachSkus sm rest).2)

/-! ## Batch upsert phase -/

/-- Earliest `date_in` per `batch_no` (source `batchEarliestByNo` loop):
set on first sight, replace when a strictly smaller date arrives. -/
def batchEarliestByNo (rows : List UsableRow) : MapStr String :=
  rows.foldl
    (fun m r =>
      match m r.batch_no with
      | none => mapSet m r.batch_no r.date_in
      | some ex => if r.date_in < ex then mapSet m r.batch_no r.date_in else m)
    mapEmpty

/-- Representative `sku_id` per `batch_no` (source `batchNoToSkuId` loop):
first seen wins. -/
def batchNoToSkuId (rows : List UsableRow) : MapStr String :=
  rows.foldl
    (fun m r => if (m r.batch_no).isSome then m else mapSet m r.batch_no r.sku_id)
    mapEmpty

/-- The loop building `missingBatchPayload`: one creation entry per batch
number absent from the batch map, carrying the representative `sku_id` and
the earliest `date_in` (spread in only when truthy, i.e. nonempty). -/
def payloadEntry (toSku : MapStr String) (earliest : MapStr String)
    (bn : String) : BatchPayload :=
  { sku_id := (toSku bn).getD ""
    batch_no := bn
    date_in :=
      match earliest bn with
      | some e => if e = "" then none else some e
      | none => none }

def missingBatchPayload (batchNosArr : List String) (batchMap : MapStr BatchRow)
    (toSku : MapStr String) (earliest : MapStr String) : List BatchPayload :=
  batchNosArr.filterMap fun bn =>
    if (batchMap bn).isSome then none
    else some (payloadEntry toSku earliest bn)

/-- The conflict test on a failed batch upsert: status 409, or error text
containing `23505` or `duplicate key value`, or (case-insensitively)
`unique constraint`. -/
def isConflictRes (u : UpsertRes) : Bool :=
  u.status == 409 || containsSubstr u.text "23505" ||
    containsSubstr u.text "duplicate key value" ||
    containsSubstr (jsToLower u.text) "unique constraint"

/-- Outcome of the upsert-and-refetch step. -/
inductive UpsertOut where
  | abortUpsert (errText : String)
  | abortRefetch (errText : String)
  | done (m : MapStr BatchRow)

/-- The batch upsert step (`phase = "upsert_batches"` / `"refetch_batches"`):
nothing to do when the payload is empty; a non-conflict upsert failure
aborts; otherwise batches are re-fetched by `batch_no` and the batch map is
rebuilt from the fresh pages. -/
def refetchBatches (env : Env) (batchNosArr : List String) : UpsertOut :=
  match fetchPages env.refetchPage BATCH_IN_CHUNK batchNosArr with
  | .error e => .abortRefetch e
  | .ok bs => .done (buildMap (fun b => b.batch_no) bs)

def upsertAndRefetch (env : Env) (payload : List BatchPayload)
    (batchNosArr : List String) (batchMap : MapStr BatchRow) : UpsertOut :=
  if payload.isEmpty then .done batchMap
  else
    let u := env.upsert payload
    if !u.ok && !isConflictRes u then .abortUpsert u.text
    else refetchBatches env batchNosArr

/-! ## Inventory payload and chunked insert -/

/-- The loop building `inventoryPayload`: a row whose `batch_no` is still
absent from the (global) batch map is skipped as unresolved. -/
def invRowOf (r : UsableRow) (b : BatchRow) : InvRow :=
  { sku_code := r.sku_code, brand_name := r.brand_name, batch_no := r.batch_no
    sku_id := r.sku_id, batch_id := b.id, barcode := r.barcode
    date_in := r.date_in, warranty_months := r.warranty_months }

def buildInventoryPayload (batchMap : MapStr BatchRow) :
    List UsableRow → List InvRow × List SkipRow
  | [] => ([], [])
  | r :: rest =>
    match batchMap r.batch_no with
    | none =>
      ((buildInventoryPayload batchMap rest).1,
        skipOfBrand r.toBrandRow (batchNotResolvedReason r.batch_no) ::
          (buildInventoryPayload batchMap rest).2)
    | some b =>
      (invRowOf r b :: (buildInventoryPayload batchMap rest).1,
        (buildInventoryPayload batchMap rest).2)

/-- Accumulated counters of the chunked-insert loop. -/
structure InsertState where
  inserted : Nat
  dups : Nat
  skipped : List SkipRow
  deriving Repr, DecidableEq

/-- One iteration of the chunked-insert loop on a single chunk: a failed
chunk skips all its rows with the truncated error text; a successful chunk
adds the echoed array's length to the inserted count and classifies every
row whose barcode is not echoed back as a duplicate. -/
def processChunk (ins : List InvRow → Except String (JsonArr Echo))
    (st : InsertState) (chunk : List InvRow) : InsertState :=
  match ins chunk with
  | .error err =>
    { st with
        skipped := st.skipped ++ chunk.map fun bad =>
          skipOfInv bad ("❌ Supabase error (bulk insert): " ++ truncate err 300) }
  | .ok data =>
    let arr := data.toList
    let returnedBarcodes := arr.map (fun e => e.barcode)
    let dupRows := chunk.filter fun row => !(returnedBarcodes.contains row.barcode)
    { inserted := st.inserted + arr.length
      dups := st.dups + dupRows.length
      skipped := st.skipped ++ dupRows.map fun row =>
        skipOfInv row ("❌ Barcode already exists (duplicate): \"" ++ row.barcode ++ "\"") }

/-- The chunked bulk insert (`phase = "insert_inventory_chunks"`). -/
def insertPhase (ins : List InvRow → Except String (JsonArr Echo))
    (payload : List InvRow) : InsertState :=
  (chunksOf INVENTORY_CHUNK_SIZE payload).foldl (processChunk ins) ⟨0, 0, []⟩

/-! ## Response shape and the `json` helper -/

/-- The custom payload fields of the call sites of `json` (no call site
passes an `added`, `addedCount` or `skipped` key, so the spread
`{added, addedCount, skipped, ...payload}` never overrides the counters). -/
structure Payload where
  error : Option String := none
  note : Option String := none
  phase : Option String := none
  inserted : Option Nat := none
  duplicates_skipped : Option Nat := none
  skippedRows : Option (List SkipRow) := none
  deriving Repr, DecidableEq

/-- A response: HTTP status plus the JSON body fields. -/
structure Resp where
  status : Nat
  added : Nat
  addedCount : Nat
  skipped : Nat
  body : Payload
  deriving Repr, DecidableEq

/-- Source `json(payload, status, counters)`: every body carries
`added`/`addedCount` equal to the inserted counter and `skipped` equal to
the length of the full skip array, plus the custom payload fields. -/
def json (payload : Payload) (status : Nat) (insertedCount : Nat)
    (skippedArr : List SkipRow) : Resp :=
  { status := status
    added := insertedCount
    addedCount := insertedCount
    skipped := skippedArr.length
    body := payload }

/-- The parsed request body: `invalid` models a JSON parse failure,
`rowsOther` a body whose `rows` field is missing, `null` or not an array,
and `rows l` an actual array. -/
inductive ReqBody where
  | invalid
  | rowsOther
  | rows (l : List RawRow)

/-! ## The handler -/

/-- A return point of the handler: the response paired with the internal
counters (`insertedCount`, full `skipped` array) at the moment `json` was
called. -/
def ret (payload : Payload) (status : Nat) (insertedCount : Nat)
    (skippedArr : List SkipRow) : Resp × Nat × List SkipRow :=
  (json payload status insertedCount skippedArr, insertedCount, skippedArr)

/-- The 500 response of a non-benign batch upsert failure
(`phase = "upsert_batches"`). -/
def upsertAbortResp (t : String) (skippedArr : List SkipRow) :
    Resp × Nat × List SkipRow :=
  ret { error := some ("Failed to upsert batches: " ++ truncate t 300),
        phase := some "upsert_batches" } 500 0 skippedArr

/-- The tail of the handler from the insert phase on: run the chunked
insert and build the final success response. -/
def finishInsert (env : Env) (skBefore : List SkipRow)
    (inventoryPayload : List InvRow) : Resp × Nat × List SkipRow :=
  let st := insertPhase env.insert inventoryPayload
  let skAll := skBefore ++ st.skipped
  ret
    { inserted := some st.inserted
      duplicates_skipped := some st.dups
      skippedRows := some (skAll.take MAX_SKIPPED_RETURN)
      note := some ("Batched mode: preloaded Brands (chunked), preloaded SKUs by " ++
        "(brand_id, sku_code), upserted global batches by batch_no, inserted " ++
        "inventory (chunked).") }
    200 st.inserted skAll

/-- `onRequestPost`, from the batch-preload phase on: resolve batches
globally by `batch_no`, upsert the missing ones, re-fetch, build the
inventory payload and insert it. -/
def batchesAndInsert (env : Env) (skBefore : List SkipRow)
    (usableRows : List UsableRow) : Resp × Nat × List SkipRow :=
  let batchNosArr := dedupFirst (usableRows.map fun r => r.batch_no)
  match fetchPages env.batchPage BATCH_IN_CHUNK batchNosArr with
  | .error e =>
    ret { error := some ("Unexpected error: " ++ e), phase := some "preload_batches" }
      500 0 skBefore
  | .ok batches =>
    let batchMap := buildMap (fun b => b.batch_no) batches
    let payload := missingBatchPayload batchNosArr batchMap
      (batchNoToSkuId usableRows) (batchEarliestByNo usableRows)
    match upsertAndRefetch env payload batchNosArr batchMap with
    | .abortUpsert t => upsertAbortResp t skBefore
    | .abortRefetch e =>
      ret { error := some ("Unexpected error: " ++ e), phase := some "refetch_batches" }
        500 0 skBefore
    | .done batchMap2 =>
      let inventoryPayload := (buildInventoryPayload batchMap2 usableRows).1
      let sk := skBefore ++ (buildInventoryPayload batchMap2 usableRows).2
      if inventoryPayload.isEmpty then
        ret { note := some "Nothing to insert after resolving SKUs/Batches.",
              phase := some "build_inventory_payload" } 200 0 sk
      else finishInsert env sk inventoryPayload

/-- Source `onRequestPost`, as a function of the oracle environment and the
parsed request body.  Returns the response together with the internal
counters (`insertedCount` and the full `skipped` array) at return time. -/
def onRequestPost (env : Env) (body : ReqBody) : Resp × Nat × List SkipRow :=
  if !env.hasKey then
    ret { error := some "Missing SUPABASE_SERVICE_ROLE_KEY", phase := some "init" } 500 0 []
  else
    match body with
    | .invalid =>
      ret { error := some "Invalid JSON body", phase := some "parse_body" } 400 0 []
    | .rowsOther =>
      ret { error := some "No rows provided (expected { rows: [...] })",
            phase := some "parse_body" } 400 0 []
    | .rows inputRows =>
      if inputRows.isEmpty then
        ret { error := some "No rows provided (expected { rows: [...] })",
              phase := some "parse_body" } 400 0 []
      else
        let rows := (normalizeRows env.jsDate 0 inputRows).1
        let sk1 := (normalizeRows env.jsDate 0 inputRows).2
        if rows.isEmpty then
          ret { note := some "All rows skipped due to missing required fields",
                phase := some "normalize_rows" } 200 0 sk1
        else
          let brandNamesArr := dedupFirst (rows.map fun r => r.brand_name)
          match fetchPages env.brandPage BRAND_IN_CHUNK brandNamesArr with
          | .error e =>
            ret { error := some ("Unexpected error: " ++ e),
                  phase := some "preload_brands" } 500 0 sk1
          | .ok brands =>
            let brandMap := buildMap (fun b => normKey b.name) brands
            let rowsWithBrand := (attachBrands brandMap rows).1
            let sk12 := sk1 ++ (attachBrands brandMap rows).2
            if rowsWithBrand.isEmpty then
              ret { note := some "All rows skipped due to missing brands",
                    phase := some "preload_brands" } 200 0 sk12
            else
              let skuPairs := dedupFirst
                (rowsWithBrand.map fun r => pairKey r.brand_id r.sku_code)
              match fetchPages env.skuPage SKU_PAIR_CHUNK skuPairs with
              | .error e =>
                ret { error := some ("Unexpected error: " ++ e),
                      phase := some "preload_skus" } 500 0 sk12
              | .ok skus =>
                let skuMap := buildMap skuKeyOf skus
                let usableRows := (attachSkus skuMap rowsWithBrand).1
                let sk123 := sk12 ++ (attachSkus skuMap rowsWithBrand).2
                if usableRows.isEmpty then
                  ret { note := some "All rows skipped due to missing SKUs",
                        phase := some "preload_skus" } 200 0 sk123
                else batchesAndInsert env sk123 usableRows

/-! ## The chunked resolver, abstracted (claim C5) -/

/-- A store that answers each filter query with exactly the matching
entities: those whose key belongs to the queried chunk. -/
def matchingOracle (keyOf : α → String) (store : List α) :
    List String → Except String (JsonArr α) :=
  fun part => .ok (.arr (store.filter fun e => part.contains (keyOf e)))

/-- The chunked resolver: fetch all pages chunk by chunk against a
store answering with the matching entities, and merge them into one
lookup map. -/
def resolveChunked (keyOf : α → String) (C : Nat) (keys : List String)
    (store : List α) : MapStr α :=
  match fetchPages (matchingOracle keyOf store) C keys with
  | .ok l => buildMap keyOf l
  | .error _ => mapEmpty

/-! ## Lemmas: chunking -/

theorem chunksOf_flatten (C : Nat) (hC : 0 < C) :
    (l : List α) → (chunksOf C l).flatten = l
  | [] => rfl
  | x :: xs => by
    rw [chunksOf_cons C (Nat.pos_iff_ne_zero.mp hC)]
    rw [List.flatten_cons, chunksOf_flatten C hC ((x :: xs).drop C)]
    exact List.take_append_drop C (x :: xs)
termination_by l => l.length
decreasing_by
  simpa using Nat.sub_lt (Nat.succ_pos xs.length) hC

/-! ## Lemmas: map building -/

theorem foldl_mapSet_eq (key : V → String) (k : String) :
    (l : List V) → (m : MapStr V) →
    l.foldl (fun m v => mapSet m (key v) v) m k =
      ((l.reverse.find? fun v => key v == k).or (m k))
  | [], m => by simp
  | v :: t, m => by
    rw [List.foldl_cons, foldl_mapSet_eq key k t, List.reverse_cons, List.find?_append]
    cases hf : t.reverse.find? (fun v => key v == k) with
    | some w => simp [hf, Option.or]
    | none =>
      simp only [hf, Option.or]
      by_cases hv : key v = k
      · simp [List.find?, hv, mapSet]
      · have : (key v == k) = false := by simpa using hv
        simp [List.find?, this, mapSet, hv]
        intro h
        exact absurd h.symm hv

theorem buildMap_eq (key : V → String) (l : List V) (k : String) :
    buildMap key l k = l.reverse.find? fun v => key v == k := by
  rw [buildMap, foldl_mapSet_eq]
  cases l.reverse.find? fun v => key v == k <;> simp [mapEmpty, Option.or]

/-- Any value found in a built map comes from the list and has the
looked-up key. -/
theorem buildMap_some (key : V → String) (l : List V) (k : String) (v : V)
    (h : buildMap key l k = some v) : v ∈ l ∧ key v = k := by
  rw [buildMap_eq] at h
  have hm := List.mem_of_find?_eq_some h
  have hp := List.find?_some h
  exact ⟨List.mem_reverse.mp hm, by simpa using hp⟩

/-! ## Lemmas: deduplication -/

theorem mem_dedupFirst {x : String} : (l : List String) → (x ∈ dedupFirst l ↔ x ∈ l)
  | [] => Iff.rfl
  | y :: t => by
    simp only [dedupFirst, List.mem_cons, List.mem_filter]
    constructor
    · rintro (rfl | ⟨h, _⟩)
      · exact .inl rfl
      · exact .inr ((mem_dedupFirst t).mp h)
    · rintro (rfl | h)
      · exact .inl rfl
      · by_cases hxy : x = y
        · exact .inl hxy
        · exact .inr ⟨(mem_dedupFirst t).mpr h, by simpa using hxy⟩

theorem nodup_dedupFirst : (l : List String) → (dedupFirst l).Nodup
  | [] => List.nodup_nil
  | y :: t => by
    simp only [dedupFirst]
    refine List.Nodup.cons ?_ (List.Nodup.filter _ (nodup_dedupFirst t))
    intro hmem
    have := (List.mem_filter.mp hmem).2
    simp at this

/-! ## Lemmas: the chunked resolver is chunk-size invariant (claim C5) -/

theorem find?_eq_head?_filter (p : α → Bool) (l : List α) :
    l.find? p = (l.filter p).head? := by
  induction l with
  | nil => rfl
  | cons a t ih =>
    by_cases h : p a
    · rw [List.find?_cons_of_pos _ h, List.filter_cons_of_pos h]
      rfl
    · rw [List.find?_cons_of_neg _ h, List.filter_cons_of_neg (by simpa using h), ih]

theorem fetchPages_matching (keyOf : α → String) (store : List α) (C : Nat)
    (keys : List String) :
    fetchPages (matchingOracle keyOf store) C keys =
      .ok ((chunksOf C keys).flatMap fun part =>
        store.filter fun e => part.contains (keyOf e)) := by
  rw [fetchPages]
  generalize chunksOf C keys = cs
  suffices h : ∀ (acc : List α),
      List.foldlM (fun acc part =>
        ((matchingOracle keyOf store part)).map fun page => acc ++ page.toList) acc cs =
      .ok (acc ++ cs.flatMap fun part => store.filter fun e => part.contains (keyOf e)) by
    simpa using h []
  induction cs with
  | nil =>
    intro acc
    simp only [List.foldlM_nil, List.flatMap_nil, List.append_nil]
    rfl
  | cons c t ih =>
    intro acc
    rw [List.foldlM_cons]
    show Except.bind _ _ = _
    rw [matchingOracle]
    show List.foldlM _ (acc ++ _) t = _
    rw [ih, List.flatMap_cons, List.append_assoc]
    rfl

theorem filter_flatMap_comm (p : β → Bool) (f : α → List β) (l : List α) :
    (l.flatMap f).filter p = l.flatMap fun a => (f a).filter p := by
  induction l with
  | nil => rfl
  | cons a t ih => rw [List.flatMap_cons, List.flatMap_cons, List.filter_append, ih]

theorem filter_key_of_matching (keyOf : α → String) (store : List α)
    (part : List String) (k : String) :
    ((store.filter fun e => part.contains (keyOf e)).filter fun e => keyOf e == k) =
      if part.contains k then store.filter (fun e => keyOf e == k) else [] := by
  rw [List.filter_filter]
  have hcongr : ∀ e ∈ store,
      ((keyOf e == k) && part.contains (keyOf e)) =
        ((keyOf e == k) && part.contains k) := by
    intro e _
    by_cases h : keyOf e = k
    · rw [h]
    · have : (keyOf e == k) = false := by simpa using h
      rw [this, Bool.false_and, Bool.false_and]
  rw [List.filter_congr hcongr]
  by_cases h : part.contains k
  · rw [if_pos h]
    apply List.filter_congr
    intro e _
    rw [h, Bool.and_true]
  · rw [if_neg h]
    have : ∀ e ∈ store, ((keyOf e == k) && part.contains k) = false := by
      intro e _
      rw [Bool.eq_false_iff.mpr h, Bool.and_false]
    rw [List.filter_congr this, List.filter_false]

theorem flatMap_ite_of_nodup (k : String) (F : List β) :
    (cs : List (List String)) → cs.flatten.Nodup →
    (cs.flatMap fun part => if part.contains k then F else []) =
      if k ∈ cs.flatten then F else []
  | [], _ => by simp
  | c :: t, h => by
    rw [List.flatten_cons] at h
    obtain ⟨hc, ht, hdisj⟩ := List.nodup_append.mp h
    rw [List.flatMap_cons, List.flatten_cons]
    by_cases hk : k ∈ c
    · have hnot : k ∉ t.flatten := fun hmem => hdisj hk hmem
      have hnil : (t.flatMap fun part => if part.contains k then F else []) = [] := by
        rw [List.flatMap_eq_nil_iff]
        intro part hpart
        have : k ∉ part := fun hin => hnot (List.mem_flatten.mpr ⟨part, hpart, hin⟩)
        simp [this]
      rw [hnil, if_pos (by simpa using hk), if_pos (List.mem_append.mpr (.inl hk)),
        List.append_nil]
    · rw [if_neg (by simpa using hk), List.nil_append,
        flatMap_ite_of_nodup k F t ht]
      by_cases hkt : k ∈ t.flatten
      · rw [if_pos hkt, if_pos (List.mem_append.mpr (.inr hkt))]
      · rw [if_neg hkt, if_neg (by simp [hk, hkt])]

/-- Characterization of the chunked resolver: for any positive chunk size,
looking up `k` in the merged map yields the last store entity whose key is
`k`, provided `k` is among the (deduplicated) query keys — independently of
the chunk size. -/
theorem resolveChunked_char (keyOf : α → String) (C : Nat) (hC : 0 < C)
    (keys : List String) (hnd : keys.Nodup) (store : List α) (k : String) :
    resolveChunked keyOf C keys store k =
      if k ∈ keys then (store.filter fun e => keyOf e == k).getLast? else none := by
  have hok : resolveChunked keyOf C keys store =
      buildMap keyOf ((chunksOf C keys).flatMap fun part =>
        store.filter fun e => part.contains (keyOf e)) := by
    rw [resolveChunked, fetchPages_matching]
  rw [hok, buildMap_eq, find?_eq_head?_filter, List.filter_reverse, List.head?_reverse,
    filter_flatMap_comm]
  have heq : ((chunksOf C keys).flatMap fun part =>
      (store.filter fun e => part.contains (keyOf e)).filter fun e => keyOf e == k) =
      if k ∈ keys then store.filter (fun e => keyOf e == k) else [] := by
    have h1 : ∀ part : List String, ((store.filter fun e => part.contains (keyOf e)).filter
        fun e => keyOf e == k) =
        if part.contains k then store.filter (fun e => keyOf e == k) else [] :=
      fun part => filter_key_of_matching keyOf store part k
    calc ((chunksOf C keys).flatMap fun part =>
          (store.filter fun e => part.contains (keyOf e)).filter fun e => keyOf e == k)
        = (chunksOf C keys).flatMap fun part =>
          if part.contains k then store.filter (fun e => keyOf e == k) else [] := by
          exact List.flatMap_congr (fun part _ => h1 part)
      _ = if k ∈ (chunksOf C keys).flatten then store.filter (fun e => keyOf e == k)
          else [] :=
          flatMap_ite_of_nodup k _ (chunksOf C keys) (by rw [chunksOf_flatten C hC]; exact hnd)
      _ = if k ∈ keys then store.filter (fun e => keyOf e == k) else [] := by
          rw [chunksOf_flatten C hC]
  rw [heq]
  by_cases hk : k ∈ keys
  · rw [if_pos hk, if_pos hk]
  · rw [if_neg hk, if_neg hk]
    rfl

/-- C5 — Chunk-size invariance of resolution: for any set of distinct
lookup keys and any two positive chunk sizes, the chunked resolver
(issuing one filter request per chunk and merging all pages into one
lookup map) produces exactly the same final key-to-entity map, assuming
the store answers each filter query with the matching entities. -/
theorem chunk_size_invariance (keyOf : α → String) (keys : List String)
    (store : List α) (Ca Cb : Nat) (ha : 0 < Ca) (hb : 0 < Cb)
    (hnd : keys.Nodup) :
    ∀ k, resolveChunked keyOf Ca keys store k = resolveChunked keyOf Cb keys store k := by
  intro k
  rw [resolveChunked_char keyOf Ca ha keys hnd store k,
    resolveChunked_char keyOf Cb hb keys hnd store k]

/-- Witness for `chunk_size_invariance` at concrete inputs. -/
theorem chunk_size_invariance_witness :
    0 < 1 ∧ 0 < 2 ∧ (["BN1", "BN2", "BN3"] : List String).Nodup ∧
      resolveChunked (fun b : BatchRow => b.batch_no) 1 ["BN1", "BN2", "BN3"]
        [⟨"T1", "S1", "BN1"⟩, ⟨"T2", "S2", "BN2"⟩] "BN2" =
      resolveChunked (fun b : BatchRow => b.batch_no) 2 ["BN1", "BN2", "BN3"]
        [⟨"T1", "S1", "BN1"⟩, ⟨"T2", "S2", "BN2"⟩] "BN2" :=
  ⟨Nat.one_pos, by decide, by decide,
    chunk_size_invariance (fun b : BatchRow => b.batch_no) ["BN1", "BN2", "BN3"]
      [⟨"T1", "S1", "BN1"⟩, ⟨"T2", "S2", "BN2"⟩] 1 2 Nat.one_pos (by decide)
      (by decide) "BN2"⟩

/-! ## Lemmas: the batch maps (claim C1) -/

theorem batchNoToSkuId_from (bn : String) :
    (rows : List UsableRow) → (m : MapStr String) →
    rows.foldl (fun m r => if (m r.batch_no).isSome then m else mapSet m r.batch_no r.sku_id)
        m bn =
      (m bn).or ((rows.find? fun r => r.batch_no == bn).map fun r => r.sku_id)
  | [], m => by cases h : m bn <;> simp [h, Option.or]
  | r :: t, m => by
    rw [List.foldl_cons, batchNoToSkuId_from bn t _]
    by_cases hbn : r.batch_no = bn
    · have hfind : ((r :: t).find? fun x : UsableRow => x.batch_no == bn) = some r :=
        List.find?_cons_of_pos (p := fun x : UsableRow => x.batch_no == bn) t (by simpa using hbn)
      rw [hfind]
      cases hm : m r.batch_no with
      | some v =>
        have hmb : m bn = some v := hbn ▸ hm
        rw [if_pos (show (some v).isSome = true from rfl), hmb]
        rfl
      | none =>
        have hmb : m bn = none := hbn ▸ hm
        rw [if_neg (show ¬(none : Option String).isSome = true by simp), hmb]
        have h1 : mapSet m r.batch_no r.sku_id bn = some r.sku_id := by
          rw [mapSet, if_pos hbn.symm]
        rw [h1]
        rfl
    · have hfind : ((r :: t).find? fun x : UsableRow => x.batch_no == bn) =
          t.find? fun x : UsableRow => x.batch_no == bn :=
        List.find?_cons_of_neg (p := fun x : UsableRow => x.batch_no == bn) t (by simpa using hbn)
      rw [hfind]
      cases hm : m r.batch_no with
      | some v => rw [if_pos (show (some v).isSome = true from rfl)]
      | none =>
        rw [if_neg (show ¬(none : Option String).isSome = true by simp)]
        have h1 : mapSet m r.batch_no r.sku_id bn = m bn := by
          rw [mapSet, if_neg (fun h => hbn h.symm)]
        rw [h1]

/-- The representative `sku_id` of a batch number is that of the first row
carrying it. -/
theorem batchNoToSkuId_eq (rows : List UsableRow) (bn : String) :
    batchNoToSkuId rows bn = (rows.find? fun r => r.batch_no == bn).map fun r => r.sku_id := by
  rw [batchNoToSkuId, batchNoToSkuId_from bn rows mapEmpty]
  cases (rows.find? fun r => r.batch_no == bn).map fun r => r.sku_id <;>
    simp [mapEmpty, Option.or]

/-- Combine the running minimum with the next date (the body of the
earliest-date update). -/
def accMin (acc : Option String) (d : String) : String :=
  match acc with
  | none => d
  | some a => min a d

/-- The running minimum of the earliest-date loop over a list of dates. -/
def minFold (acc : Option String) : List String → Option String
  | [] => acc
  | d :: t => minFold (some (accMin acc d)) t

theorem batchEarliestByNo_from (bn : String) :
    (rows : List UsableRow) → (m : MapStr String) →
    rows.foldl
        (fun m r =>
          match m r.batch_no with
          | none => mapSet m r.batch_no r.date_in
          | some ex => if r.date_in < ex then mapSet m r.batch_no r.date_in else m)
        m bn =
      minFold (m bn) ((rows.filter fun r => r.batch_no == bn).map fun r => r.date_in)
  | [], m => rfl
  | r :: t, m => by
    rw [List.foldl_cons, batchEarliestByNo_from bn t _]
    by_cases hbn : r.batch_no = bn
    · have hfilt : ((r :: t).filter fun x : UsableRow => x.batch_no == bn) =
          r :: t.filter fun x : UsableRow => x.batch_no == bn :=
        List.filter_cons_of_pos (p := fun x : UsableRow => x.batch_no == bn) (by simpa using hbn)
      rw [hfilt, List.map_cons, minFold]
      congr 1
      cases hm : m r.batch_no with
      | none =>
        have hmb : m bn = none := hbn ▸ hm
        show mapSet m r.batch_no r.date_in bn = some (accMin (m bn) r.date_in)
        rw [mapSet, if_pos hbn.symm, hmb]
        rfl
      | some ex =>
        have hmb : m bn = some ex := hbn ▸ hm
        rw [hmb]
        show (if r.date_in < ex then mapSet m r.batch_no r.date_in else m) bn =
          some (accMin (some ex) r.date_in)
        by_cases hlt : r.date_in < ex
        · rw [if_pos hlt, mapSet, if_pos hbn.symm]
          show _ = some (min ex r.date_in)
          rw [min_eq_right (le_of_lt hlt)]
        · rw [if_neg hlt, hmb]
          show some ex = some (min ex r.date_in)
          rw [min_eq_left (le_of_not_lt hlt)]
    · have hfilt : ((r :: t).filter fun x : UsableRow => x.batch_no == bn) =
          t.filter fun x : UsableRow => x.batch_no == bn :=
        List.filter_cons_of_neg (p := fun x : UsableRow => x.batch_no == bn) (by simpa using hbn)
      rw [hfilt]
      congr 1
      cases hm : m r.batch_no with
      | none =>
        show mapSet m r.batch_no r.date_in bn = m bn
        rw [mapSet, if_neg (fun h => hbn h.symm)]
      | some ex =>
        show (if r.date_in < ex then mapSet m r.batch_no r.date_in else m) bn = m bn
        by_cases hlt : r.date_in < ex
        · rw [if_pos hlt, mapSet, if_neg (fun h => hbn h.symm)]
        · rw [if_neg hlt]

theorem minFold_isSome (a : String) : (l : List String) → (minFold (some a) l).isSome
  | [] => rfl
  | _ :: t => minFold_isSome _ t

theorem minFold_some_char (d : String) :
    (l : List String) → (acc : Option String) → minFold acc l = some d →
    (d ∈ l ∨ acc = some d) ∧ (∀ x ∈ l, d ≤ x) ∧ (∀ a, acc = some a → d ≤ a)
  | [], acc, h => by
    have hacc : acc = some d := h
    refine ⟨.inr hacc, by simp, fun a ha => ?_⟩
    rw [hacc] at ha
    exact le_of_eq (Option.some_injective _ ha)
  | e :: t, acc, h => by
    rw [minFold] at h
    obtain ⟨hmem, hub, hacc⟩ := minFold_some_char d t _ h
    have hdc : d ≤ accMin acc e := hacc _ rfl
    have hde : d ≤ e := by
      cases acc with
      | none => exact hdc
      | some a => exact le_trans hdc (min_le_right a e)
    refine ⟨?_, ?_, ?_⟩
    · rcases hmem with hmem | hmem
      · exact .inl (List.mem_cons_of_mem e hmem)
      · cases hacc2 : acc with
        | none =>
          rw [hacc2] at hmem
          have : accMin none e = d := Option.some_injective _ hmem
          exact .inl (by rw [List.mem_cons]; exact .inl this.symm)
        | some a =>
          rw [hacc2] at hmem
          have hmin : min a e = d := Option.some_injective _ hmem
          rcases min_cases a e with ⟨hc, _⟩ | ⟨hc, _⟩
          · exact .inr (by rw [← hc, hmin])
          · exact .inl (by rw [List.mem_cons]; exact .inl (by rw [← hmin, hc]))
    · intro x hx
      rcases List.mem_cons.mp hx with rfl | hx
      · exact hde
      · exact hub x hx
    · intro a ha
      have hd2 : d ≤ accMin acc e := hdc
      rw [ha] at hd2
      exact le_trans hd2 (min_le_left a e)

/-- Membership in the missing-batch payload: every entry stems from a
queried batch number absent from the batch map and carries the
representative `sku_id` and (truthiness-guarded) earliest date. -/
theorem missingBatchPayload_mem (batchNosArr : List String) (bm : MapStr BatchRow)
    (ts ea : MapStr String) (p : BatchPayload)
    (hp : p ∈ missingBatchPayload batchNosArr bm ts ea) :
    p.batch_no ∈ batchNosArr ∧ bm p.batch_no = none ∧
      p = payloadEntry ts ea p.batch_no := by
  rw [missingBatchPayload] at hp
  obtain ⟨bn, hbn, hf⟩ := List.mem_filterMap.mp hp
  by_cases hs : (bm bn).isSome
  · rw [if_pos hs] at hf
    cases hf
  · rw [if_neg hs] at hf
    have hrec := Option.some_injective _ hf
    have hpb : p.batch_no = bn := by rw [← hrec]; rfl
    subst hpb
    exact ⟨hbn, Option.not_isSome_iff_eq_none.mp hs, hrec.symm⟩

theorem missingBatchPayload_cons (c : String) (t : List String)
    (bm : MapStr BatchRow) (ts ea : MapStr String) :
    missingBatchPayload (c :: t) bm ts ea =
      if (bm c).isSome then missingBatchPayload t bm ts ea
      else payloadEntry ts ea c :: missingBatchPayload t bm ts ea := by
  rw [missingBatchPayload, List.filterMap_cons]
  by_cases hs : (bm c).isSome
  · rw [if_pos hs, if_pos hs]
    rfl
  · rw [if_neg hs, if_neg hs]
    rfl

theorem missingBatchPayload_filter_nil (bn : String) (nos : List String)
    (bm : MapStr BatchRow) (ts ea : MapStr String) (hnot : bn ∉ nos) :
    ((missingBatchPayload nos bm ts ea).filter fun p => p.batch_no == bn) = [] := by
  rw [List.filter_eq_nil_iff]
  intro p hp hbeq
  obtain ⟨hmem, _, _⟩ := missingBatchPayload_mem nos bm ts ea p hp
  have hpbn : p.batch_no = bn := by simpa using hbeq
  rw [hpbn] at hmem
  exact hnot hmem

theorem missingBatchPayload_count (bn : String) (bm : MapStr BatchRow)
    (ts ea : MapStr String) :
    (nos : List String) → nos.Nodup → bn ∈ nos → bm bn = none →
    ((missingBatchPayload nos bm ts ea).filter fun p => p.batch_no == bn).length = 1
  | [], _, hmem, _ => absurd hmem (List.not_mem_nil bn)
  | c :: t, hnd, hmem, hnone => by
    rw [missingBatchPayload_cons]
    rcases List.mem_cons.mp hmem with rfl | hmem2
    · rw [if_neg (by rw [hnone]; simp)]
      rw [List.filter_cons_of_pos (by rw [payloadEntry]; simp)]
      rw [List.length_cons,
        missingBatchPayload_filter_nil bn t bm ts ea ((List.nodup_cons.mp hnd).1)]
      rfl
    · have hne : bn ≠ c := by
        rintro rfl
        exact (List.nodup_cons.mp hnd).1 hmem2
      have hrec := missingBatchPayload_count bn bm ts ea t
        (List.nodup_cons.mp hnd).2 hmem2 hnone
      by_cases hs : (bm c).isSome
      · rw [if_pos hs]
        exact hrec
      · rw [if_neg hs]
        rw [List.filter_cons_of_neg (by rw [payloadEntry]; simpa using fun h => hne h.symm)]
        exact hrec

/-- The earliest-date map holds, for every batch number that occurs among
the rows, a minimum of the dates of the rows carrying it. -/
theorem batchEarliestByNo_min (rows : List UsableRow) (bn : String)
    (hmem : bn ∈ rows.map fun r => r.batch_no) :
    ∃ d, batchEarliestByNo rows bn = some d ∧
      d ∈ ((rows.filter fun r => r.batch_no == bn).map fun r => r.date_in) ∧
      ∀ x ∈ (rows.filter fun r => r.batch_no == bn).map fun r => r.date_in, d ≤ x := by
  have hchar := batchEarliestByNo_from bn rows mapEmpty
  rw [batchEarliestByNo]
  rw [show (mapEmpty bn : Option String) = none from rfl] at hchar
  obtain ⟨r, hr, hrbn⟩ := List.mem_map.mp hmem
  have hne : ((rows.filter fun r => r.batch_no == bn).map fun r => r.date_in) ≠ [] := by
    have : r ∈ rows.filter fun r => r.batch_no == bn :=
      List.mem_filter.mpr ⟨hr, by simpa using hrbn⟩
    intro hnil
    rw [List.map_eq_nil_iff] at hnil
    rw [hnil] at this
    cases this
  cases hl : (rows.filter fun r => r.batch_no == bn).map fun r => r.date_in with
  | nil => exact absurd hl hne
  | cons e t =>
    rw [hl] at hchar
    rw [minFold] at hchar
    have hchar2 : List.foldl
        (fun m r =>
          match m r.batch_no with
          | none => mapSet m r.batch_no r.date_in
          | some ex => if r.date_in < ex then mapSet m r.batch_no r.date_in else m)
        mapEmpty rows bn = minFold (some e) t := hchar
    have hsome := minFold_isSome e t
    cases hv : minFold (some e) t with
    | none => rw [hv] at hsome; cases hsome
    | some d =>
      refine ⟨d, by rw [hchar2, hv], ?_⟩
      rw [hv] at hchar2
      obtain ⟨hmem2, hub, hacc⟩ := minFold_some_char d t (some e) hv
      have hde : d ≤ e := hacc e rfl
      constructor
      · rcases hmem2 with hm2 | hm2
        · exact List.mem_cons_of_mem e hm2
        · exact by rw [List.mem_cons]; exact .inl (Option.some_injective _ hm2).symm
      · intro x hx
        rcases List.mem_cons.mp hx with rfl | hx
        · exact hde
        · exact hub x hx

/-- C1 — Global batch semantics: among valid rows sharing a batch number
for which no batch exists yet, exactly one batch-creation payload entry is
constructed; its `sku_id` is that of the first row observed with that
batch number, and its `date_in` is the minimum (lexicographic on the
normalized ISO date strings) of the dates of all rows sharing it. -/
theorem global_batch_semantics (rows : List UsableRow) (batchMap : MapStr BatchRow)
    (bn : String)
    (hmem : bn ∈ rows.map fun r => r.batch_no)
    (hnew : batchMap bn = none)
    (hdates : ∀ r ∈ rows, r.date_in ≠ "") :
    (((missingBatchPayload (dedupFirst (rows.map fun r => r.batch_no)) batchMap
        (batchNoToSkuId rows) (batchEarliestByNo rows)).filter
          fun p => p.batch_no == bn).length = 1) ∧
    (∀ p ∈ missingBatchPayload (dedupFirst (rows.map fun r => r.batch_no)) batchMap
        (batchNoToSkuId rows) (batchEarliestByNo rows), p.batch_no = bn →
      (∃ r, (rows.find? fun x : UsableRow => x.batch_no == bn) = some r ∧
        p.sku_id = r.sku_id) ∧
      (∃ d, p.date_in = some d ∧
        d ∈ ((rows.filter fun x : UsableRow => x.batch_no == bn).map fun r => r.date_in) ∧
        ∀ x ∈ (rows.filter fun x : UsableRow => x.batch_no == bn).map fun r => r.date_in,
          d ≤ x)) := by
  constructor
  · exact missingBatchPayload_count bn batchMap _ _ _
      (nodup_dedupFirst _) ((mem_dedupFirst _).mpr hmem) hnew
  · intro p hp hpbn
    obtain ⟨_, _, hrec⟩ := missingBatchPayload_mem _ _ _ _ p hp
    rw [hpbn] at hrec
    obtain ⟨d, hea, hdmem, hdmin⟩ := batchEarliestByNo_min rows bn hmem
    obtain ⟨r0, hr0, hr0bn⟩ := List.mem_map.mp hmem
    have hfind : ((rows.find? fun x : UsableRow => x.batch_no == bn)).isSome :=
      List.find?_isSome.mpr ⟨r0, hr0, by simpa using hr0bn⟩
    cases hf : rows.find? fun x : UsableRow => x.batch_no == bn with
    | none => rw [hf] at hfind; cases hfind
    | some r =>
      constructor
      · refine ⟨r, rfl, ?_⟩
        rw [hrec, payloadEntry]
        show (batchNoToSkuId rows bn).getD "" = r.sku_id
        rw [batchNoToSkuId_eq, hf]
        rfl
      · have hdne : d ≠ "" := by
          obtain ⟨r1, hr1, hr1d⟩ := List.mem_map.mp hdmem
          rw [← hr1d]
          exact hdates r1 (List.mem_filter.mp hr1).1
        refine ⟨d, ?_, hdmem, hdmin⟩
        rw [hrec, payloadEntry]
        show (match batchEarliestByNo rows bn with
          | some e => if e = "" then none else some e
          | none => none) = some d
        rw [hea]
        show (if d = "" then none else some d) = some d
        rw [if_neg hdne]

/-- Witness for `global_batch_semantics` at concrete inputs. -/
theorem global_batch_semantics_witness :
    ("B7" ∈ ([⟨⟨⟨"SC1", "BR", "B7", "X1", "2025-01-02", none, 0⟩, "BID"⟩, "S1"⟩,
        ⟨⟨⟨"SC2", "BR", "B7", "X2", "2025-01-01", none, 1⟩, "BID"⟩, "S2"⟩] :
        List UsableRow).map fun r => r.batch_no) ∧
    (mapEmpty : MapStr BatchRow) "B7" = none ∧
    (∀ r ∈ ([⟨⟨⟨"SC1", "BR", "B7", "X1", "2025-01-02", none, 0⟩, "BID"⟩, "S1"⟩,
        ⟨⟨⟨"SC2", "BR", "B7", "X2", "2025-01-01", none, 1⟩, "BID"⟩, "S2"⟩] :
        List UsableRow), r.date_in ≠ "") ∧
    ((((missingBatchPayload
        (dedupFirst (([⟨⟨⟨"SC1", "BR", "B7", "X1", "2025-01-02", none, 0⟩, "BID"⟩, "S1"⟩,
          ⟨⟨⟨"SC2", "BR", "B7", "X2", "2025-01-01", none, 1⟩, "BID"⟩, "S2"⟩] :
          List UsableRow).map fun r => r.batch_no)) mapEmpty
        (batchNoToSkuId [⟨⟨⟨"SC1", "BR", "B7", "X1", "2025-01-02", none, 0⟩, "BID"⟩, "S1"⟩,
          ⟨⟨⟨"SC2", "BR", "B7", "X2", "2025-01-01", none, 1⟩, "BID"⟩, "S2"⟩])
        (batchEarliestByNo [⟨⟨⟨"SC1", "BR", "B7", "X1", "2025-01-02", none, 0⟩, "BID"⟩, "S1"⟩,
          ⟨⟨⟨"SC2", "BR", "B7", "X2", "2025-01-01", none, 1⟩, "BID"⟩, "S2"⟩])).filter
          fun p => p.batch_no == "B7").length = 1)) := by
  refine ⟨by simp, rfl, by decide, ?_⟩
  exact (global_batch_semantics
    [⟨⟨⟨"SC1", "BR", "B7", "X1", "2025-01-02", none, 0⟩, "BID"⟩, "S1"⟩,
      ⟨⟨⟨"SC2", "BR", "B7", "X2", "2025-01-01", none, 1⟩, "BID"⟩, "S2"⟩]
    mapEmpty "B7" (by simp) rfl (by decide)).1

/-! ## Lemmas: the resolution chain (claim C2) -/

theorem attachBrands_fst (bm : MapStr Brand) : (rows : List NormalizedRow) →
    (attachBrands bm rows).1 = rows.filterMap fun r =>
      (bm (normKey r.brand_name)).map fun b =>
        ({ toNormalizedRow := r, brand_id := b.id } : BrandRow)
  | [] => rfl
  | r :: t => by
    rw [List.filterMap_cons]
    cases h : bm (normKey r.brand_name) with
    | none =>
      simp only [attachBrands, h, Option.map_none']
      exact attachBrands_fst bm t
    | some b =>
      simp only [attachBrands, h, Option.map_some']
      rw [attachBrands_fst bm t]

theorem attachBrands_snd (bm : MapStr Brand) : (rows : List NormalizedRow) →
    (attachBrands bm rows).2 = rows.filterMap fun r =>
      match bm (normKey r.brand_name) with
      | none => some (skipOfNorm r (brandNotFoundReason r.brand_name))
      | some _ => none
  | [] => rfl
  | r :: t => by
    rw [List.filterMap_cons]
    cases h : bm (normKey r.brand_name) with
    | none =>
      simp only [attachBrands, h]
      rw [attachBrands_snd bm t]
    | some b =>
      simp only [attachBrands, h]
      exact attachBrands_snd bm t

theorem attachSkus_fst (sm : MapStr SkuRow) : (rows : List BrandRow) →
    (attachSkus sm rows).1 = rows.filterMap fun r =>
      (sm (pairKey r.brand_id r.sku_code)).map fun s =>
        ({ toBrandRow := r, sku_id := s.id } : UsableRow)
  | [] => rfl
  | r :: t => by
    rw [List.filterMap_cons]
    cases h : sm (pairKey r.brand_id r.sku_code) with
    | none =>
      simp only [attachSkus, h, Option.map_none']
      exact attachSkus_fst sm t
    | some b =>
      simp only [attachSkus, h, Option.map_some']
      rw [attachSkus_fst sm t]

theorem attachSkus_snd (sm : MapStr SkuRow) : (rows : List BrandRow) →
    (attachSkus sm rows).2 = rows.filterMap fun r =>
      match sm (pairKey r.brand_id r.sku_code) with
      | none => some (skipOfBrand r (skuNotFoundReason r.brand_name r.sku_code))
      | some _ => none
  | [] => rfl
  | r :: t => by
    rw [List.filterMap_cons]
    cases h : sm (pairKey r.brand_id r.sku_code) with
    | none =>
      simp only [attachSkus, h]
      rw [attachSkus_snd sm t]
    | some b =>
      simp only [attachSkus, h]
      exact attachSkus_snd sm t

theorem buildInventoryPayload_fst (bmap : MapStr BatchRow) : (rows : List UsableRow) →
    (buildInventoryPayload bmap rows).1 = rows.filterMap fun r =>
      (bmap r.batch_no).map fun b => invRowOf r b
  | [] => rfl
  | r :: t => by
    rw [List.filterMap_cons]
    cases h : bmap r.batch_no with
    | none =>
      simp only [buildInventoryPayload, h, Option.map_none']
      exact buildInventoryPayload_fst bmap t
    | some b =>
      simp only [buildInventoryPayload, h, Option.map_some']
      rw [buildInventoryPayload_fst bmap t]

theorem buildInventoryPayload_snd (bmap : MapStr BatchRow) : (rows : List UsableRow) →
    (buildInventoryPayload bmap rows).2 = rows.filterMap fun r =>
      match bmap r.batch_no with
      | none => some (skipOfBrand r.toBrandRow (batchNotResolvedReason r.batch_no))
      | some _ => none
  | [] => rfl
  | r :: t => by
    rw [List.filterMap_cons]
    cases h : bmap r.batch_no with
    | none =>
      simp only [buildInventoryPayload, h]
      rw [buildInventoryPayload_snd bmap t]
    | some b =>
      simp only [buildInventoryPayload, h]
      exact buildInventoryPayload_snd bmap t

theorem cons_sep_inj (sep : Char) :
    (a : List Char) → (c : List Char) → sep ∉ a → sep ∉ c →
    ∀ {b d : List Char}, a ++ sep :: b = c ++ sep :: d → a = c ∧ b = d
  | [], [], _, _, b, d, h => ⟨rfl, by simpa using h⟩
  | [], c0 :: ct, _, hc, b, d, h => by
    have : sep = c0 := by simpa using congrArg (fun l => l.head?) h
    exact absurd (this ▸ List.mem_cons_self c0 ct) hc
  | a0 :: at', [], ha, _, b, d, h => by
    have : a0 = sep := by simpa using congrArg (fun l => l.head?) h
    exact absurd (this ▸ List.mem_cons_self a0 at') ha
  | a0 :: at', c0 :: ct, ha, hc, b, d, h => by
    have h0 : a0 = c0 := by simpa using congrArg (fun l => l.head?) h
    have ht : at' ++ sep :: b = ct ++ sep :: d := by simpa using congrArg List.tail h
    obtain ⟨h1, h2⟩ := cons_sep_inj sep at' ct
      (fun hmem => ha (List.mem_cons_of_mem a0 hmem))
      (fun hmem => hc (List.mem_cons_of_mem c0 hmem)) ht
    exact ⟨by rw [h0, h1], h2⟩

/-- The composite key `brand_id┃sku_code` determines both components as
long as neither `brand_id` contains the separator character. -/
theorem pairKey_inj {a b c d : String}
    (ha : ('┃' : Char) ∉ a.data) (hc : ('┃' : Char) ∉ c.data)
    (h : pairKey a b = pairKey c d) : a = c ∧ b = d := by
  have hdata : a.data ++ '┃' :: b.data = c.data ++ '┃' :: d.data := by
    have h1 := congrArg String.data h
    rw [pairKey, pairKey, String.data_append, String.data_append,
      String.data_append, String.data_append] at h1
    simpa using h1
  obtain ⟨h1, h2⟩ := cons_sep_inj '┃' a.data c.data ha hc hdata
  exact ⟨String.ext h1, String.ext h2⟩

theorem attachBrands_fst_mem (bm : MapStr Brand) (rows : List NormalizedRow)
    (r' : BrandRow) (h : r' ∈ (attachBrands bm rows).1) :
    ∃ r ∈ rows, ∃ b, bm (normKey r.brand_name) = some b ∧
      r' = { toNormalizedRow := r, brand_id := b.id } := by
  rw [attachBrands_fst] at h
  obtain ⟨r, hr, hf⟩ := List.mem_filterMap.mp h
  cases hb : bm (normKey r.brand_name) with
  | none => rw [hb] at hf; cases hf
  | some b =>
    rw [hb] at hf
    exact ⟨r, hr, b, hb, (Option.some_injective _ hf).symm⟩

theorem attachSkus_fst_mem (sm : MapStr SkuRow) (rbs : List BrandRow)
    (u : UsableRow) (h : u ∈ (attachSkus sm rbs).1) :
    ∃ r' ∈ rbs, ∃ s, sm (pairKey r'.brand_id r'.sku_code) = some s ∧
      u = { toBrandRow := r', sku_id := s.id } := by
  rw [attachSkus_fst] at h
  obtain ⟨r', hr', hf⟩ := List.mem_filterMap.mp h
  cases hs : sm (pairKey r'.brand_id r'.sku_code) with
  | none => rw [hs] at hf; cases hf
  | some sku =>
    rw [hs] at hf
    exact ⟨r', hr', sku, hs, (Option.some_injective _ hf).symm⟩

theorem substr_brandNotFound (name : String) :
    SubstrOf "Brand not found" (brandNotFoundReason name) := by
  refine ⟨"❌ ", ": \"" ++ name ++ "\"", ?_⟩
  rw [brandNotFoundReason]
  apply String.ext
  simp [String.data_append]

theorem substr_skuNotFound (brand_name sku_code : String) :
    SubstrOf "SKU not found" (skuNotFoundReason brand_name sku_code) := by
  refine ⟨"❌ ", " for (brand_name=\"" ++ brand_name ++
    "\", sku_code=\"" ++ sku_code ++ "\")", ?_⟩
  rw [skuNotFoundReason]
  apply String.ext
  simp [String.data_append]

/-- C2 — Resolution chain ordering and scoping: a row whose brand is
unmatched is skipped with a `Brand not found` reason and excluded from the
brand-resolved rows (hence from SKU lookup, batch creation and insert,
which consume only those); SKU resolution keys rows by the composite pair
`(brand_id, sku_code)`, so the same `sku_code` under different brands
resolves to different SKU identifiers (given that distinct store SKUs
have distinct ids), and a row with no matching pair is skipped with a
`SKU not found` reason. -/
theorem resolution_chain_scoping
    (rows : List NormalizedRow) (bm : MapStr Brand) (skus : List SkuRow)
    (hidx : (rows.map fun r => r.rowIndex).Nodup)
    (hsepS : ∀ s ∈ skus, ('┃' : Char) ∉ s.brand_id.data)
    (hsepB : ∀ k b, bm k = some b → ('┃' : Char) ∉ b.id.data)
    (hinj : ∀ s1 ∈ skus, ∀ s2 ∈ skus, s1.id = s2.id →
      s1.brand_id = s2.brand_id ∧ s1.sku_code = s2.sku_code) :
    (∀ r ∈ rows, bm (normKey r.brand_name) = none →
      skipOfNorm r (brandNotFoundReason r.brand_name) ∈ (attachBrands bm rows).2 ∧
      SubstrOf "Brand not found" (brandNotFoundReason r.brand_name) ∧
      (∀ r' ∈ (attachBrands bm rows).1, r'.rowIndex ≠ r.rowIndex) ∧
      (∀ u ∈ (attachSkus (buildMap skuKeyOf skus) (attachBrands bm rows).1).1,
        u.rowIndex ≠ r.rowIndex)) ∧
    (∀ u ∈ (attachSkus (buildMap skuKeyOf skus) (attachBrands bm rows).1).1,
      ∃ s ∈ skus, skuKeyOf s = pairKey u.brand_id u.sku_code ∧ u.sku_id = s.id) ∧
    (∀ u1 ∈ (attachSkus (buildMap skuKeyOf skus) (attachBrands bm rows).1).1,
      ∀ u2 ∈ (attachSkus (buildMap skuKeyOf skus) (attachBrands bm rows).1).1,
      u1.sku_code = u2.sku_code → u1.brand_id ≠ u2.brand_id →
      u1.sku_id ≠ u2.sku_id) ∧
    (∀ r' ∈ (attachBrands bm rows).1,
      buildMap skuKeyOf skus (pairKey r'.brand_id r'.sku_code) = none →
      skipOfBrand r' (skuNotFoundReason r'.brand_name r'.sku_code) ∈
        (attachSkus (buildMap skuKeyOf skus) (attachBrands bm rows).1).2 ∧
      SubstrOf "SKU not found" (skuNotFoundReason r'.brand_name r'.sku_code)) := by
  have hexcl : ∀ r ∈ rows, bm (normKey r.brand_name) = none →
      ∀ r' ∈ (attachBrands bm rows).1, r'.rowIndex ≠ r.rowIndex := by
    intro r hr hnone r' hr' heq
    obtain ⟨rsrc, hrsrc, b, hb, hval⟩ := attachBrands_fst_mem bm rows r' hr'
    have hri : rsrc.rowIndex = r.rowIndex := by rw [← heq, hval]
    have : rsrc = r := List.inj_on_of_nodup_map hidx hrsrc hr hri
    rw [this, hnone] at hb
    cases hb
  have hbrandid : ∀ u ∈ (attachSkus (buildMap skuKeyOf skus) (attachBrands bm rows).1).1,
      ('┃' : Char) ∉ u.brand_id.data := by
    intro u hu
    obtain ⟨r', hr', sku, hsku, hval⟩ := attachSkus_fst_mem _ _ u hu
    obtain ⟨rsrc, _, b, hb, hval2⟩ := attachBrands_fst_mem bm rows r' hr'
    have : u.brand_id = b.id := by rw [hval, hval2]
    rw [this]
    exact hsepB _ b hb
  have hkeyed : ∀ u ∈ (attachSkus (buildMap skuKeyOf skus) (attachBrands bm rows).1).1,
      ∃ s ∈ skus, skuKeyOf s = pairKey u.brand_id u.sku_code ∧ u.sku_id = s.id := by
    intro u hu
    obtain ⟨r', hr', sku, hsku, hval⟩ := attachSkus_fst_mem _ _ u hu
    obtain ⟨hmem, hkey⟩ := buildMap_some skuKeyOf skus _ sku hsku
    refine ⟨sku, hmem, ?_, by rw [hval]⟩
    rw [hkey]
    have h1 : u.brand_id = r'.brand_id := by rw [hval]
    have h2 : u.sku_code = r'.sku_code := by rw [hval]
    rw [h1, h2]
  refine ⟨?_, hkeyed, ?_, ?_⟩
  · intro r hr hnone
    refine ⟨?_, substr_brandNotFound r.brand_name, hexcl r hr hnone, ?_⟩
    · rw [attachBrands_snd]
      exact List.mem_filterMap.mpr ⟨r, hr, by rw [hnone]⟩
    · intro u hu heq
      obtain ⟨r', hr', sku, hsku, hval⟩ := attachSkus_fst_mem _ _ u hu
      have : r'.rowIndex = u.rowIndex := by rw [hval]
      exact hexcl r hr hnone r' hr' (by rw [this, heq])
  · intro u1 hu1 u2 hu2 hcode hbrand hid
    obtain ⟨s1, hs1, hk1, hi1⟩ := hkeyed u1 hu1
    obtain ⟨s2, hs2, hk2, hi2⟩ := hkeyed u2 hu2
    have hids : s1.id = s2.id := by rw [← hi1, ← hi2, hid]
    have hbrands := (hinj s1 hs1 s2 hs2 hids).1
    rw [skuKeyOf] at hk1 hk2
    obtain ⟨hb1, _⟩ := pairKey_inj (hsepS s1 hs1) (hbrandid u1 hu1) hk1
    obtain ⟨hb2, _⟩ := pairKey_inj (hsepS s2 hs2) (hbrandid u2 hu2) hk2
    exact hbrand (by rw [← hb1, ← hb2, hbrands])
  · intro r' hr' hnone
    refine ⟨?_, substr_skuNotFound r'.brand_name r'.sku_code⟩
    rw [attachSkus_snd]
    exact List.mem_filterMap.mpr ⟨r', hr', by rw [hnone]⟩

/-- Concrete rows for the `resolution_chain_scoping` witness: the same
`sku_code` under two different brands. -/
def wRows : List NormalizedRow :=
  [⟨"SC", "BR1", "B1", "X1", "2025-01-01", none, 0⟩,
   ⟨"SC", "BR2", "B1", "X2", "2025-01-01", none, 1⟩]

/-- Concrete brand map for the `resolution_chain_scoping` witness. -/
def wBrandMap : MapStr Brand :=
  fun k => if k = "BR1" then some ⟨"B1id", "BR1"⟩
    else if k = "BR2" then some ⟨"B2id", "BR2"⟩ else none

/-- Concrete SKU store for the `resolution_chain_scoping` witness. -/
def wSkus : List SkuRow := [⟨"S1", "SC", "B1id"⟩, ⟨"S2", "SC", "B2id"⟩]

/-- Witness for `resolution_chain_scoping` at concrete inputs. -/
theorem resolution_chain_scoping_witness :
    ((wRows.map fun r => r.rowIndex).Nodup) ∧
    (∀ s ∈ wSkus, ('┃' : Char) ∉ s.brand_id.data) ∧
    (∀ k b, wBrandMap k = some b → ('┃' : Char) ∉ b.id.data) ∧
    (∀ s1 ∈ wSkus, ∀ s2 ∈ wSkus, s1.id = s2.id →
      s1.brand_id = s2.brand_id ∧ s1.sku_code = s2.sku_code) ∧
    (∀ u1 ∈ (attachSkus (buildMap skuKeyOf wSkus) (attachBrands wBrandMap wRows).1).1,
      ∀ u2 ∈ (attachSkus (buildMap skuKeyOf wSkus) (attachBrands wBrandMap wRows).1).1,
      u1.sku_code = u2.sku_code → u1.brand_id ≠ u2.brand_id →
      u1.sku_id ≠ u2.sku_id) := by
  have hsepB : ∀ k b, wBrandMap k = some b → ('┃' : Char) ∉ b.id.data := by
    intro k b hb
    rw [wBrandMap] at hb
    by_cases h1 : k = "BR1"
    · rw [if_pos h1] at hb
      cases Option.some_injective _ hb
      decide
    · rw [if_neg h1] at hb
      by_cases h2 : k = "BR2"
      · rw [if_pos h2] at hb
        cases Option.some_injective _ hb
        decide
      · rw [if_neg h2] at hb
        cases hb
  exact ⟨by decide, by decide, hsepB, by decide,
    (resolution_chain_scoping wRows wBrandMap wSkus (by decide) (by decide) hsepB
      (by decide)).2.2.1⟩

/-! ## Lemmas: normalization and required fields (claim C6) -/

theorem normalizeRows_cons (jd : String → Option String) (n : Nat) (raw : RawRow)
    (rest : List RawRow) :
    normalizeRows jd n (raw :: rest) =
      if missingRequired (normalizeOne jd n raw) then
        ((normalizeRows jd (n + 1) rest).1,
          skipOfNorm (normalizeOne jd n raw) missingReason ::
            (normalizeRows jd (n + 1) rest).2)
      else (normalizeOne jd n raw :: (normalizeRows jd (n + 1) rest).1,
        (normalizeRows jd (n + 1) rest).2) := rfl

theorem normalizeRows_idx_ge (jd : String → Option String) :
    (input : List RawRow) → (n : Nat) →
    ∀ nr ∈ (normalizeRows jd n input).1, n ≤ nr.rowIndex
  | [], _ => by intro nr h; cases h
  | raw :: rest, n => by
    intro nr h
    rw [normalizeRows_cons] at h
    by_cases hm : missingRequired (normalizeOne jd n raw)
    · rw [if_pos hm] at h
      exact le_trans (Nat.le_succ n) (normalizeRows_idx_ge jd rest (n + 1) nr h)
    · rw [if_neg hm] at h
      rcases List.mem_cons.mp h with rfl | h
      · exact le_refl n
      · exact le_trans (Nat.le_succ n) (normalizeRows_idx_ge jd rest (n + 1) nr h)

theorem normalizeRows_skip_mem (jd : String → Option String) :
    (input : List RawRow) → (n i : Nat) → (raw : RawRow) →
    input[i]? = some raw → missingRequired (normalizeOne jd (n + i) raw) = true →
    skipOfNorm (normalizeOne jd (n + i) raw) missingReason ∈ (normalizeRows jd n input).2
  | [], _, i, raw, hget, _ => by cases i <;> cases hget
  | head :: rest, n, 0, raw, hget, hmiss => by
    have hhead : head = raw := by simpa using hget
    subst hhead
    rw [normalizeRows_cons, if_pos (by simpa using hmiss)]
    simp
  | head :: rest, n, i + 1, raw, hget, hmiss => by
    have hget2 : rest[i]? = some raw := by simpa using hget
    have hmiss2 : missingRequired (normalizeOne jd ((n + 1) + i) raw) = true := by
      rw [show (n + 1) + i = n + (i + 1) by omega]
      exact hmiss
    have hrec := normalizeRows_skip_mem jd rest (n + 1) i raw hget2 hmiss2
    rw [show (n + 1) + i = n + (i + 1) by omega] at hrec
    rw [normalizeRows_cons]
    by_cases hm : missingRequired (normalizeOne jd n head)
    · rw [if_pos hm]
      exact List.mem_cons_of_mem _ hrec
    · rw [if_neg hm]
      exact hrec

theorem normalizeRows_excl (jd : String → Option String) :
    (input : List RawRow) → (n i : Nat) → (raw : RawRow) →
    input[i]? = some raw → missingRequired (normalizeOne jd (n + i) raw) = true →
    ∀ nr ∈ (normalizeRows jd n input).1, nr.rowIndex ≠ n + i
  | [], _, i, raw, hget, _ => by cases i <;> cases hget
  | head :: rest, n, 0, raw, hget, hmiss => by
    have hhead : head = raw := by simpa using hget
    subst hhead
    intro nr h
    rw [normalizeRows_cons, if_pos (by simpa using hmiss)] at h
    have := normalizeRows_idx_ge jd rest (n + 1) nr h
    omega
  | head :: rest, n, i + 1, raw, hget, hmiss => by
    have hget2 : rest[i]? = some raw := by simpa using hget
    have hmiss2 : missingRequired (normalizeOne jd ((n + 1) + i) raw) = true := by
      rw [show (n + 1) + i = n + (i + 1) by omega]
      exact hmiss
    have hrec := normalizeRows_excl jd rest (n + 1) i raw hget2 hmiss2
    intro nr h
    rw [normalizeRows_cons] at h
    by_cases hm : missingRequired (normalizeOne jd n head)
    · rw [if_pos hm] at h
      have := hrec nr h
      omega
    · rw [if_neg hm] at h
      rcases List.mem_cons.mp h with rfl | h
      · show ¬(normalizeOne jd n head).rowIndex = n + (i + 1)
        show ¬n = n + (i + 1)
        omega
      · have := hrec nr h
        omega

/-- C6 — Missing-required-field rejection: an input row whose normalized
form (after alias remapping, trimming and date normalization) lacks any of
the five required fields is recorded in the skip list with the
`Missing required field(s)` reason, carrying its normalized field values,
and no validated row retains its index — so it reaches no later phase and
cannot contribute to the inserted count, which is computed from the
validated rows only. -/
theorem missing_field_rejection (jd : String → Option String) (input : List RawRow)
    (i : Nat) (raw : RawRow)
    (hget : input[i]? = some raw)
    (hmiss : missingRequired (normalizeOne jd i raw) = true) :
    skipOfNorm (normalizeOne jd i raw) missingReason ∈ (normalizeRows jd 0 input).2 ∧
    SubstrOf "Missing required field(s)" missingReason ∧
    skipOfNorm (normalizeOne jd i raw) missingReason =
      ⟨(normalizeOne jd i raw).sku_code, (normalizeOne jd i raw).brand_name,
       (normalizeOne jd i raw).batch_no, (normalizeOne jd i raw).barcode,
       (normalizeOne jd i raw).date_in, missingReason⟩ ∧
    (∀ nr ∈ (normalizeRows jd 0 input).1, nr.rowIndex ≠ i) := by
  have h0 : (0 : Nat) + i = i := by omega
  refine ⟨?_, ?_, rfl, ?_⟩
  · have := normalizeRows_skip_mem jd input 0 i raw (by simpa using hget)
      (by rw [h0]; exact hmiss)
    rw [h0] at this
    exact this
  · refine ⟨"❌ ", ". Required: sku_code, brand_name, batch_no, barcode, date_in", ?_⟩
    rw [missingReason]
    apply String.ext
    simp [String.data_append]
  · have := normalizeRows_excl jd input 0 i raw (by simpa using hget)
      (by rw [h0]; exact hmiss)
    rw [h0] at this
    exact this

/-- A raw row with no fields at all, for the witness below. -/
def wRaw : RawRow := {}

/-- Witness for `missing_field_rejection` at a concrete input (a raw row
with no fields at all). -/
theorem missing_field_rejection_witness :
    ([wRaw] : List RawRow)[0]? = some wRaw ∧
    missingRequired (normalizeOne (fun _ => none) 0 wRaw) = true ∧
    skipOfNorm (normalizeOne (fun _ => none) 0 wRaw) missingReason ∈
      (normalizeRows (fun _ => none) 0 [wRaw]).2 :=
  ⟨rfl, by decide,
    (missing_field_rejection (fun _ => none) [wRaw] 0 wRaw rfl (by decide)).1⟩

/-! ## Lemmas: response shape (claim C4) -/

/-- The response-shape invariant: `added`/`addedCount` equal the inserted
counter, `skipped` equals the length of the full skip list, and a
`skippedRows` array, when present, is the skip list capped at
`MAX_SKIPPED_RETURN`. -/
def RespOK (t : Resp × Nat × List SkipRow) : Prop :=
  t.1.added = t.2.1 ∧ t.1.addedCount = t.2.1 ∧ t.1.skipped = t.2.2.length ∧
    ∀ l, t.1.body.skippedRows = some l →
      l = t.2.2.take MAX_SKIPPED_RETURN ∧ l.length ≤ MAX_SKIPPED_RETURN

theorem respOK_ret (p : Payload) (st i : Nat) (k : List SkipRow)
    (hp : p.skippedRows = none) : RespOK (ret p st i k) := by
  refine ⟨rfl, rfl, rfl, fun l hl => ?_⟩
  have : p.skippedRows = some l := hl
  rw [hp] at this
  cases this

theorem respOK_finishInsert (env : Env) (sk : List SkipRow) (payload : List InvRow) :
    RespOK (finishInsert env sk payload) := by
  refine ⟨rfl, rfl, rfl, fun l hl => ?_⟩
  have hl2 : some ((sk ++ (insertPhase env.insert payload).skipped).take MAX_SKIPPED_RETURN)
      = some l := hl
  have heq := Option.some_injective _ hl2
  refine ⟨heq.symm, ?_⟩
  rw [← heq]
  exact le_trans (le_of_eq (List.length_take _ _)) (min_le_left _ _)

theorem respOK_batchesAndInsert (env : Env) (sk : List SkipRow)
    (usableRows : List UsableRow) : RespOK (batchesAndInsert env sk usableRows) := by
  rw [batchesAndInsert]
  cases fetchPages env.batchPage BATCH_IN_CHUNK
      (dedupFirst (usableRows.map fun r => r.batch_no)) with
  | error e => exact respOK_ret _ _ _ _ rfl
  | ok batches =>
    simp only
    cases upsertAndRefetch env
        (missingBatchPayload (dedupFirst (usableRows.map fun r => r.batch_no))
          (buildMap (fun b => b.batch_no) batches) (batchNoToSkuId usableRows)
          (batchEarliestByNo usableRows))
        (dedupFirst (usableRows.map fun r => r.batch_no))
        (buildMap (fun b => b.batch_no) batches) with
    | abortUpsert t => exact respOK_ret _ _ _ _ rfl
    | abortRefetch e => exact respOK_ret _ _ _ _ rfl
    | done batchMap2 =>
      simp only
      by_cases hemp : (buildInventoryPayload batchMap2 usableRows).1.isEmpty
      · rw [if_pos hemp]
        exact respOK_ret _ _ _ _ rfl
      · rw [if_neg hemp]
        exact respOK_finishInsert env _ _

/-- C4 — Response shape stability: every response of the handler carries
numeric `added`/`addedCount` fields equal to the rows inserted so far and a
`skipped` field equal to the length of the full (uncapped) skip list, and
any `skippedRows` array in the body is the skip list capped at
`MAX_SKIPPED_RETURN` (200) entries. -/
theorem response_shape (env : Env) (body : ReqBody) :
    RespOK (onRequestPost env body) := by
  rw [onRequestPost.eq_def]
  by_cases hk : env.hasKey
  · rw [if_neg (by rw [hk]; simp)]
    cases body with
    | invalid => exact respOK_ret _ _ _ _ rfl
    | rowsOther => exact respOK_ret _ _ _ _ rfl
    | rows inputRows =>
      simp only
      by_cases hin : inputRows.isEmpty
      · rw [if_pos hin]
        exact respOK_ret _ _ _ _ rfl
      · rw [if_neg hin]
        by_cases hrows : (normalizeRows env.jsDate 0 inputRows).1.isEmpty
        · rw [if_pos hrows]
          exact respOK_ret _ _ _ _ rfl
        · rw [if_neg hrows]
          cases fetchPages env.brandPage BRAND_IN_CHUNK
              (dedupFirst ((normalizeRows env.jsDate 0 inputRows).1.map
                fun r => r.brand_name)) with
          | error e => exact respOK_ret _ _ _ _ rfl
          | ok brands =>
            simp only
            by_cases hrb : ((attachBrands (buildMap (fun b => normKey b.name) brands)
                (normalizeRows env.jsDate 0 inputRows).1).1).isEmpty
            · rw [if_pos hrb]
              exact respOK_ret _ _ _ _ rfl
            · rw [if_neg hrb]
              cases fetchPages env.skuPage SKU_PAIR_CHUNK
                  (dedupFirst (((attachBrands (buildMap (fun b => normKey b.name) brands)
                    (normalizeRows env.jsDate 0 inputRows).1).1).map
                      fun r => pairKey r.brand_id r.sku_code)) with
              | error e => exact respOK_ret _ _ _ _ rfl
              | ok skus =>
                simp only
                by_cases hus : ((attachSkus (buildMap skuKeyOf skus)
                    (attachBrands (buildMap (fun b => normKey b.name) brands)
                      (normalizeRows env.jsDate 0 inputRows).1).1).1).isEmpty
                · rw [if_pos hus]
                  exact respOK_ret _ _ _ _ rfl
                · rw [if_neg hus]
                  exact respOK_batchesAndInsert env _ _
  · rw [if_pos (by rw [Bool.not_eq_true'] at *; simpa using hk)]
    exact respOK_ret _ _ _ _ rfl

/-! ## Claim C7: benign-conflict batch upsert -/

/-- C7 — Benign-conflict batch upsert: when the upsert of a nonempty
missing-batch payload fails, a conflict response (status 409, or error
text carrying `23505`, `duplicate key value`, or case-insensitively
`unique constraint`, per `isConflictRes`) does not abort — the step
proceeds to re-fetch the batches; any other failure aborts, and the
handler turns that abort into a 500 response tagged with the
`upsert_batches` phase. -/
theorem benign_conflict_upsert (env : Env) (payload : List BatchPayload)
    (bNos : List String) (bm : MapStr BatchRow)
    (hne : payload.isEmpty = false) :
    ((env.upsert payload).ok = false → isConflictRes (env.upsert payload) = true →
      upsertAndRefetch env payload bNos bm = refetchBatches env bNos) ∧
    ((env.upsert payload).ok = false → isConflictRes (env.upsert payload) = false →
      upsertAndRefetch env payload bNos bm = .abortUpsert (env.upsert payload).text) ∧
    (∀ t sk, (upsertAbortResp t sk).1.status = 500 ∧
      (upsertAbortResp t sk).1.body.phase = some "upsert_batches" ∧
      (upsertAbortResp t sk).1.body.error =
        some ("Failed to upsert batches: " ++ truncate t 300) ∧
      (upsertAbortResp t sk).1.skipped = sk.length) := by
  refine ⟨?_, ?_, fun t sk => ⟨rfl, rfl, rfl, rfl⟩⟩
  · intro hok hconf
    rw [upsertAndRefetch, if_neg (by rw [hne]; simp)]
    rw [if_neg (by rw [hok, hconf]; simp)]
  · intro hok hconf
    rw [upsertAndRefetch, if_neg (by rw [hne]; simp)]
    rw [if_pos (by rw [hok, hconf]; simp)]

/-- Environment whose upsert always reports a 409 conflict, for the
witness below. -/
def conflictEnv : Env :=
  { hasKey := true
    jsDate := fun _ => none
    brandPage := fun _ => .ok .other
    skuPage := fun _ => .ok .other
    batchPage := fun _ => .ok .other
    upsert := fun _ => ⟨false, 409, "duplicate key value violates unique constraint"⟩
    refetchPage := fun _ => .ok (.arr [])
    insert := fun _ => .ok .other }

/-- Witness for `benign_conflict_upsert` at concrete inputs. -/
theorem benign_conflict_upsert_witness :
    ([({ sku_id := "S1", batch_no := "B1", date_in := none } : BatchPayload)].isEmpty
      = false) ∧
    (conflictEnv.upsert [{ sku_id := "S1", batch_no := "B1", date_in := none }]).ok
      = false ∧
    isConflictRes (conflictEnv.upsert
      [{ sku_id := "S1", batch_no := "B1", date_in := none }]) = true ∧
    upsertAndRefetch conflictEnv [{ sku_id := "S1", batch_no := "B1", date_in := none }]
      [] mapEmpty = refetchBatches conflictEnv [] ∧
    (upsertAbortResp "boom" []).1.status = 500 := by
  refine ⟨rfl, rfl, by decide, ?_, ?_⟩
  · exact (benign_conflict_upsert conflictEnv
      [{ sku_id := "S1", batch_no := "B1", date_in := none }] [] mapEmpty rfl).1
      rfl (by decide)
  · exact ((benign_conflict_upsert conflictEnv
      [{ sku_id := "S1", batch_no := "B1", date_in := none }] [] mapEmpty rfl).2.2
      "boom" []).1

/-! ## Claim C10: missing/non-array `rows` field -/

/-- C10 — Non-array `rows` edge case: a parsed body whose `rows` field is
missing, `null` or not an array is treated exactly as an empty row set —
a 400 response carrying the `No rows provided` error with zeroed
counters — and the result does not depend on the store oracles (no
outbound call is made). -/
theorem nonarray_rows_as_empty (env : Env) (h : env.hasKey = true) :
    onRequestPost env .rowsOther = onRequestPost env (.rows []) ∧
    (onRequestPost env .rowsOther).1.status = 400 ∧
    (onRequestPost env .rowsOther).1.body.error =
      some "No rows provided (expected { rows: [...] })" ∧
    (onRequestPost env .rowsOther).1.body.phase = some "parse_body" ∧
    (onRequestPost env .rowsOther).1.added = 0 ∧
    (onRequestPost env .rowsOther).1.skipped = 0 ∧
    (∀ env2 : Env, env2.hasKey = true →
      onRequestPost env2 .rowsOther = onRequestPost env .rowsOther) := by
  have he : onRequestPost env .rowsOther =
      ret { error := some "No rows provided (expected { rows: [...] })",
            phase := some "parse_body" } 400 0 [] := by
    rw [onRequestPost.eq_def, h]
    rfl
  have he2 : onRequestPost env (.rows []) =
      ret { error := some "No rows provided (expected { rows: [...] })",
            phase := some "parse_body" } 400 0 [] := by
    rw [onRequestPost.eq_def, h]
    rfl
  refine ⟨by rw [he, he2], by rw [he]; rfl, by rw [he]; rfl, by rw [he]; rfl,
    by rw [he]; rfl, by rw [he]; rfl, ?_⟩
  intro env2 h2
  have he3 : onRequestPost env2 .rowsOther =
      ret { error := some "No rows provided (expected { rows: [...] })",
            phase := some "parse_body" } 400 0 [] := by
    rw [onRequestPost.eq_def, h2]
    rfl
  rw [he, he3]

/-- Witness for `nonarray_rows_as_empty` at a concrete environment. -/
theorem nonarray_rows_as_empty_witness :
    conflictEnv.hasKey = true ∧
    (onRequestPost conflictEnv .rowsOther).1.status = 400 :=
  ⟨rfl, (nonarray_rows_as_empty conflictEnv rfl).2.1⟩

/-! ## Claim C3: chunked-insert classification -/

/-- Counting: filtering a duplicate-free list by membership in a
duplicate-free sub-collection recovers exactly its size. -/
theorem filter_contains_length (A R : List String) (hA : A.Nodup) (hR : R.Nodup)
    (hsub : ∀ x ∈ R, x ∈ A) :
    (A.filter fun a => R.contains a).length = R.length := by
  have hfA : (A.filter fun a => R.contains a).Nodup := List.Nodup.filter _ hA
  have hmem : ∀ x, x ∈ A.filter (fun a => R.contains a) ↔ x ∈ R := by
    intro x
    rw [List.mem_filter]
    constructor
    · intro hx
      simpa using hx.2
    · intro hx
      exact ⟨hsub x hx, by simpa using hx⟩
  exact List.Perm.length_eq ((List.perm_ext_iff_of_nodup hfA hR).mpr hmem)

/-- The echoed-rows count equals the number of chunk rows whose barcode is
echoed, provided the chunk's barcodes are distinct and the echo is a
duplicate-free selection of them. -/
theorem echo_count (chunk : List InvRow) (l : List Echo)
    (hchunk : (chunk.map fun r => r.barcode).Nodup)
    (hecho : (l.map fun e => e.barcode).Nodup)
    (hsub : ∀ e ∈ l, e.barcode ∈ chunk.map fun r => r.barcode) :
    (chunk.filter fun r => (l.map fun e => e.barcode).contains r.barcode).length
      = l.length := by
  have h1 : (chunk.filter fun r => (l.map fun e => e.barcode).contains r.barcode).length
      = ((chunk.map fun r => r.barcode).filter
          fun a => (l.map fun e => e.barcode).contains a).length := by
    rw [List.filter_map]
    rw [List.length_map]
    rfl
  rw [h1, filter_contains_length _ _ hchunk hecho
    (fun x hx => by
      obtain ⟨e, he, hev⟩ := List.mem_map.mp hx
      rw [← hev]
      exact hsub e he), List.length_map]

/-- C3 — Chunked-insert classification: the insert phase folds the
per-chunk step over the payload's chunks (so a failed chunk never stops
the following ones); a non-success chunk response skips every row of the
chunk with the truncated raw error text and inserts nothing; a success
response adds, for an honest echo, exactly the rows whose barcode is
echoed to the inserted count, and every row whose barcode is absent from
the echo is skipped as a duplicate. -/
theorem chunked_insert_classification (ins : List InvRow → Except String (JsonArr Echo))
    (payload : List InvRow) (st : InsertState) (chunk : List InvRow) :
    (insertPhase ins payload =
      (chunksOf INVENTORY_CHUNK_SIZE payload).foldl (processChunk ins) ⟨0, 0, []⟩) ∧
    (∀ err, ins chunk = .error err →
      (processChunk ins st chunk).inserted = st.inserted ∧
      (processChunk ins st chunk).skipped = st.skipped ++ chunk.map (fun bad =>
        skipOfInv bad ("❌ Supabase error (bulk insert): " ++ truncate err 300)) ∧
      SubstrOf (truncate err 300)
        ("❌ Supabase error (bulk insert): " ++ truncate err 300)) ∧
    (∀ l, ins chunk = .ok (.arr l) →
      (chunk.map fun r => r.barcode).Nodup →
      (l.map fun e => e.barcode).Nodup →
      (∀ e ∈ l, e.barcode ∈ chunk.map fun r => r.barcode) →
      (processChunk ins st chunk).inserted = st.inserted +
        (chunk.filter fun r => (l.map fun e => e.barcode).contains r.barcode).length ∧
      ∀ row ∈ chunk, ((l.map fun e => e.barcode).contains row.barcode) = false →
        skipOfInv row ("❌ Barcode already exists (duplicate): \"" ++ row.barcode ++ "\"")
          ∈ (processChunk ins st chunk).skipped ∧
        SubstrOf "Barcode already exists"
          ("❌ Barcode already exists (duplicate): \"" ++ row.barcode ++ "\"")) := by
  refine ⟨rfl, ?_, ?_⟩
  · intro err herr
    rw [processChunk, herr]
    refine ⟨rfl, rfl, ⟨"❌ Supabase error (bulk insert): ", "", ?_⟩⟩
    apply String.ext
    simp [String.data_append]
  · intro l hok hchunk hecho hsub
    rw [processChunk, hok]
    constructor
    · show st.inserted + l.length = st.inserted +
        (chunk.filter fun r => (l.map fun e => e.barcode).contains r.barcode).length
      rw [echo_count chunk l hchunk hecho hsub]
    · intro row hrow hnot
      constructor
      · show skipOfInv row _ ∈ st.skipped ++
          (chunk.filter fun r =>
            !((l.map fun e => e.barcode).contains r.barcode)).map fun r =>
              skipOfInv r ("❌ Barcode already exists (duplicate): \"" ++ r.barcode ++ "\"")
        refine List.mem_append.mpr (.inr (List.mem_map.mpr ⟨row, ?_, rfl⟩))
        exact List.mem_filter.mpr ⟨hrow, by rw [hnot]; rfl⟩
      · refine ⟨"❌ ", " (duplicate): \"" ++ row.barcode ++ "\"", ?_⟩
        apply String.ext
        simp [String.data_append]

/-- Witness for `chunked_insert_classification` at concrete inputs: a
two-row chunk whose echo returns only the first barcode. -/
theorem chunked_insert_classification_witness :
    (processChunk (fun _ => .ok (.arr [⟨"X1"⟩]))
        ⟨0, 0, []⟩
        [{ sku_code := "SC", brand_name := "BR", batch_no := "B1", sku_id := "S1",
           batch_id := "T1", barcode := "X1", date_in := "2025-01-01",
           warranty_months := none },
         { sku_code := "SC", brand_name := "BR", batch_no := "B1", sku_id := "S1",
           batch_id := "T1", barcode := "X2", date_in := "2025-01-01",
           warranty_months := none }]).inserted = 0 + 1 := by
  have h := ((chunked_insert_classification (fun _ => .ok (.arr [⟨"X1"⟩])) []
      ⟨0, 0, []⟩
      [{ sku_code := "SC", brand_name := "BR", batch_no := "B1", sku_id := "S1",
         batch_id := "T1", barcode := "X1", date_in := "2025-01-01",
         warranty_months := none },
       { sku_code := "SC", brand_name := "BR", batch_no := "B1", sku_id := "S1",
         batch_id := "T1", barcode := "X2", date_in := "2025-01-01",
         warranty_months := none }]).2.2 [⟨"X1"⟩] rfl (by decide) (by decide)
      (by decide)).1
  rw [h]
  decide

/-! ## Claim C9: row accounting -/

theorem normalizeRows_length (jd : String → Option String) :
    (input : List RawRow) → (n : Nat) →
    input.length = (normalizeRows jd n input).1.length + (normalizeRows jd n input).2.length
  | [], _ => rfl
  | raw :: rest, n => by
    rw [normalizeRows_cons]
    by_cases hm : missingRequired (normalizeOne jd n raw)
    · rw [if_pos hm]
      simp only [List.length_cons]
      rw [normalizeRows_length jd rest (n + 1)]
      omega
    · rw [if_neg hm]
      simp only [List.length_cons]
      rw [normalizeRows_length jd rest (n + 1)]
      omega

theorem attachBrands_length (bm : MapStr Brand) : (rows : List NormalizedRow) →
    rows.length = (attachBrands bm rows).1.length + (attachBrands bm rows).2.length
  | [] => rfl
  | r :: t => by
    cases h : bm (normKey r.brand_name) with
    | none =>
      simp only [attachBrands, h, List.length_cons]
      rw [attachBrands_length bm t]
      omega
    | some b =>
      simp only [attachBrands, h, List.length_cons]
      rw [attachBrands_length bm t]
      omega

theorem attachSkus_length (sm : MapStr SkuRow) : (rows : List BrandRow) →
    rows.length = (attachSkus sm rows).1.length + (attachSkus sm rows).2.length
  | [] => rfl
  | r :: t => by
    cases h : sm (pairKey r.brand_id r.sku_code) with
    | none =>
      simp only [attachSkus, h, List.length_cons]
      rw [attachSkus_length sm t]
      omega
    | some b =>
      simp only [attachSkus, h, List.length_cons]
      rw [attachSkus_length sm t]
      omega

theorem buildInventoryPayload_length (bmap : MapStr BatchRow) : (rows : List UsableRow) →
    rows.length = (buildInventoryPayload bmap rows).1.length +
      (buildInventoryPayload bmap rows).2.length
  | [] => rfl
  | r :: t => by
    cases h : bmap r.batch_no with
    | none =>
      simp only [buildInventoryPayload, h, List.length_cons]
      rw [buildInventoryPayload_length bmap t]
      omega
    | some b =>
      simp only [buildInventoryPayload, h, List.length_cons]
      rw [buildInventoryPayload_length bmap t]
      omega

theorem attachBrands_barcode_sublist (bm : MapStr Brand) : (rows : List NormalizedRow) →
    ((attachBrands bm rows).1.map fun r => r.barcode).Sublist
      (rows.map fun r => r.barcode)
  | [] => List.Sublist.refl _
  | r :: t => by
    cases h : bm (normKey r.brand_name) with
    | none =>
      simp only [attachBrands, h, List.map_cons]
      exact List.Sublist.cons _ (attachBrands_barcode_sublist bm t)
    | some b =>
      simp only [attachBrands, h, List.map_cons]
      exact List.Sublist.cons₂ _ (attachBrands_barcode_sublist bm t)

theorem attachSkus_barcode_sublist (sm : MapStr SkuRow) : (rows : List BrandRow) →
    ((attachSkus sm rows).1.map fun r => r.barcode).Sublist
      (rows.map fun r => r.barcode)
  | [] => List.Sublist.refl _
  | r :: t => by
    cases h : sm (pairKey r.brand_id r.sku_code) with
    | none =>
      simp only [attachSkus, h, List.map_cons]
      exact List.Sublist.cons _ (attachSkus_barcode_sublist sm t)
    | some b =>
      simp only [attachSkus, h, List.map_cons]
      exact List.Sublist.cons₂ _ (attachSkus_barcode_sublist sm t)

theorem buildInventoryPayload_barcode_sublist (bmap : MapStr BatchRow) :
    (rows : List UsableRow) →
    ((buildInventoryPayload bmap rows).1.map fun r => r.barcode).Sublist
      (rows.map fun r => r.barcode)
  | [] => List.Sublist.refl _
  | r :: t => by
    cases h : bmap r.batch_no with
    | none =>
      simp only [buildInventoryPayload, h, List.map_cons]
      exact List.Sublist.cons _ (buildInventoryPayload_barcode_sublist bmap t)
    | some b =>
      simp only [buildInventoryPayload, h, List.map_cons]
      exact List.Sublist.cons₂ _ (buildInventoryPayload_barcode_sublist bmap t)

/-- One chunk of the insert conserves rows: inserted delta plus skipped
delta equals the chunk size, for honest echoes and distinct barcodes. -/
theorem processChunk_conserve (ins : List InvRow → Except String (JsonArr Echo))
    (st : InsertState) (chunk : List InvRow)
    (hnd : (chunk.map fun r => r.barcode).Nodup)
    (hhonest : ∀ l, ins chunk = .ok (.arr l) →
      (l.map fun e => e.barcode).Nodup ∧
        ∀ e ∈ l, e.barcode ∈ chunk.map fun r => r.barcode) :
    (processChunk ins st chunk).inserted + (processChunk ins st chunk).skipped.length
      = st.inserted + st.skipped.length + chunk.length := by
  rw [processChunk]
  cases hres : ins chunk with
  | error err =>
    simp only [List.length_append, List.length_map]
    omega
  | ok data =>
    cases data with
    | other =>
      show st.inserted + 0 +
        (st.skipped ++ (chunk.filter fun row =>
          !(([] : List String).contains row.barcode)).map fun row =>
            skipOfInv row _).length = _
      have hall : (chunk.filter fun row =>
          !(([] : List String).contains row.barcode)) = chunk :=
        List.filter_eq_self.mpr (fun a _ => rfl)
      rw [hall]
      simp only [List.length_append, List.length_map]
      omega
    | arr l =>
      obtain ⟨hecho, hsub⟩ := hhonest l hres
      show st.inserted + l.length +
        (st.skipped ++ (chunk.filter fun row =>
          !((l.map fun e => e.barcode).contains row.barcode)).map fun row =>
            skipOfInv row _).length = _
      have hperm := List.filter_append_perm
        (fun row => (l.map fun e => e.barcode).contains row.barcode) chunk
      have hlen := hperm.length_eq
      rw [List.length_append] at hlen
      have hcount := echo_count chunk l hnd hecho hsub
      simp only [List.length_append, List.length_map]
      omega

theorem foldl_processChunk_conserve (ins : List InvRow → Except String (JsonArr Echo))
    (hhonest : ∀ chunk l, ins chunk = .ok (.arr l) →
      (l.map fun e => e.barcode).Nodup ∧
        ∀ e ∈ l, e.barcode ∈ chunk.map fun r => r.barcode) :
    (cs : List (List InvRow)) → (st : InsertState) →
    (∀ chunk ∈ cs, (chunk.map fun r => r.barcode).Nodup) →
    (cs.foldl (processChunk ins) st).inserted +
        (cs.foldl (processChunk ins) st).skipped.length
      = st.inserted + st.skipped.length + cs.flatten.length
  | [], st, _ => by simp
  | c :: t, st, hnd => by
    rw [List.foldl_cons, List.flatten_cons,
      foldl_processChunk_conserve ins hhonest t (processChunk ins st c)
        (fun chunk hc => hnd chunk (List.mem_cons_of_mem c hc)),
      processChunk_conserve ins st c (hnd c (List.mem_cons_self c t))
        (fun l hl => hhonest c l hl)]
    rw [List.length_append]
    omega

/-- The insert phase conserves rows: inserted count plus skip count equals
the payload size, for honest echoes and distinct payload barcodes. -/
theorem insertPhase_conserve (ins : List InvRow → Except String (JsonArr Echo))
    (payload : List InvRow)
    (hnd : (payload.map fun r => r.barcode).Nodup)
    (hhonest : ∀ chunk l, ins chunk = .ok (.arr l) →
      (l.map fun e => e.barcode).Nodup ∧
        ∀ e ∈ l, e.barcode ∈ chunk.map fun r => r.barcode) :
    (insertPhase ins payload).inserted + (insertPhase ins payload).skipped.length
      = payload.length := by
  rw [insertPhase]
  have hchunks : ∀ chunk ∈ chunksOf INVENTORY_CHUNK_SIZE payload,
      (chunk.map fun r => r.barcode).Nodup := by
    intro chunk hc
    have hsub : chunk.Sublist payload := by
      have := List.sublist_flatten_of_mem hc
      rwa [chunksOf_flatten INVENTORY_CHUNK_SIZE (by rw [INVENTORY_CHUNK_SIZE]; omega)]
        at this
    exact List.Nodup.sublist (List.Sublist.map _ hsub) hnd
  rw [foldl_processChunk_conserve ins hhonest _ _ hchunks,
    chunksOf_flatten INVENTORY_CHUNK_SIZE (by rw [INVENTORY_CHUNK_SIZE]; omega)]
  simp

theorem batchesAndInsert_conserve (env : Env) (sk : List SkipRow)
    (usable : List UsableRow)
    (hnd : (usable.map fun r => r.barcode).Nodup)
    (hhonest : ∀ chunk l, env.insert chunk = .ok (.arr l) →
      (l.map fun e => e.barcode).Nodup ∧
        ∀ e ∈ l, e.barcode ∈ chunk.map fun r => r.barcode)
    (h200 : (batchesAndInsert env sk usable).1.status = 200) :
    (batchesAndInsert env sk usable).2.1 + (batchesAndInsert env sk usable).2.2.length
      = usable.length + sk.length := by
  rw [batchesAndInsert] at h200 ⊢
  revert h200
  cases fetchPages env.batchPage BATCH_IN_CHUNK
      (dedupFirst (usable.map fun r => r.batch_no)) with
  | error e =>
    intro h200
    have hfive : (500 : Nat) = 200 := h200
    omega
  | ok batches =>
    simp only
    cases upsertAndRefetch env
        (missingBatchPayload (dedupFirst (usable.map fun r => r.batch_no))
          (buildMap (fun b => b.batch_no) batches) (batchNoToSkuId usable)
          (batchEarliestByNo usable))
        (dedupFirst (usable.map fun r => r.batch_no))
        (buildMap (fun b => b.batch_no) batches) with
    | abortUpsert t =>
      intro h200
      have hfive : (500 : Nat) = 200 := h200
      omega
    | abortRefetch e =>
      intro h200
      have hfive : (500 : Nat) = 200 := h200
      omega
    | done batchMap2 =>
      simp only
      intro h200
      have hlen := buildInventoryPayload_length batchMap2 usable
      by_cases hemp : (buildInventoryPayload batchMap2 usable).1.isEmpty
      · rw [if_pos hemp]
        show 0 + (sk ++ (buildInventoryPayload batchMap2 usable).2).length
          = usable.length + sk.length
        have hnil : (buildInventoryPayload batchMap2 usable).1 = [] :=
          List.isEmpty_iff.mp hemp
        rw [hnil] at hlen
        simp only [List.length_nil] at hlen
        rw [List.length_append]
        omega
      · rw [if_neg hemp]
        show (insertPhase env.insert (buildInventoryPayload batchMap2 usable).1).inserted
            + ((sk ++ (buildInventoryPayload batchMap2 usable).2) ++
              (insertPhase env.insert
                (buildInventoryPayload batchMap2 usable).1).skipped).length
          = usable.length + sk.length
        have hpnd : ((buildInventoryPayload batchMap2 usable).1.map
            fun r => r.barcode).Nodup :=
          List.Nodup.sublist (buildInventoryPayload_barcode_sublist batchMap2 usable) hnd
        have hcons := insertPhase_conserve env.insert
          (buildInventoryPayload batchMap2 usable).1 hpnd hhonest
        rw [List.length_append, List.length_append]
        omega

/-- C9 (amended) — Row accounting conservation: on a 200 response of the
handler, the number of submitted rows equals the inserted count plus the
length of the full skip list, PROVIDED the barcodes of the validated rows
are pairwise distinct and every successful insert echo is a
duplicate-free selection of the submitted chunk's barcodes.  (Without
these provisos the equality fails; see the counterexample.) -/
theorem row_conservation (env : Env) (inputRows : List RawRow)
    (hnd : ((normalizeRows env.jsDate 0 inputRows).1.map fun r => r.barcode).Nodup)
    (hhonest : ∀ chunk l, env.insert chunk = .ok (.arr l) →
      (l.map fun e => e.barcode).Nodup ∧
        ∀ e ∈ l, e.barcode ∈ chunk.map fun r => r.barcode)
    (h200 : (onRequestPost env (.rows inputRows)).1.status = 200) :
    inputRows.length = (onRequestPost env (.rows inputRows)).2.1 +
      (onRequestPost env (.rows inputRows)).2.2.length := by
  rw [onRequestPost.eq_def] at h200 ⊢
  by_cases hk : env.hasKey
  · rw [if_neg (by rw [hk]; simp)] at h200 ⊢
    simp only at h200 ⊢
    by_cases hin : inputRows.isEmpty
    · rw [if_pos hin] at h200
      have hfour : (400 : Nat) = 200 := h200
      omega
    · rw [if_neg hin] at h200 ⊢
      have hlen1 := normalizeRows_length env.jsDate inputRows 0
      by_cases hrows : (normalizeRows env.jsDate 0 inputRows).1.isEmpty
      · rw [if_pos hrows] at h200 ⊢
        show inputRows.length = 0 + (normalizeRows env.jsDate 0 inputRows).2.length
        have hnil := List.isEmpty_iff.mp hrows
        rw [hnil] at hlen1
        simp only [List.length_nil] at hlen1
        omega
      · rw [if_neg hrows] at h200 ⊢
        revert h200
        cases fetchPages env.brandPage BRAND_IN_CHUNK
            (dedupFirst ((normalizeRows env.jsDate 0 inputRows).1.map
              fun r => r.brand_name)) with
        | error e =>
          intro h200
          have hfive : (500 : Nat) = 200 := h200
          omega
        | ok brands =>
          simp only
          intro h200
          have hlen2 := attachBrands_length (buildMap (fun b => normKey b.name) brands)
            (normalizeRows env.jsDate 0 inputRows).1
          by_cases hrb : ((attachBrands (buildMap (fun b => normKey b.name) brands)
              (normalizeRows env.jsDate 0 inputRows).1).1).isEmpty
          · rw [if_pos hrb] at h200 ⊢
            show inputRows.length = 0 + ((normalizeRows env.jsDate 0 inputRows).2 ++
              (attachBrands (buildMap (fun b => normKey b.name) brands)
                (normalizeRows env.jsDate 0 inputRows).1).2).length
            have hnil := List.isEmpty_iff.mp hrb
            rw [hnil] at hlen2
            simp only [List.length_nil] at hlen2
            rw [List.length_append]
            omega
          · rw [if_neg hrb] at h200 ⊢
            revert h200
            cases fetchPages env.skuPage SKU_PAIR_CHUNK
                (dedupFirst (((attachBrands (buildMap (fun b => normKey b.name) brands)
                  (normalizeRows env.jsDate 0 inputRows).1).1).map
                    fun r => pairKey r.brand_id r.sku_code)) with
            | error e =>
              intro h200
              have hfive : (500 : Nat) = 200 := h200
              omega
            | ok skus =>
              simp only
              intro h200
              have hlen3 := attachSkus_length (buildMap skuKeyOf skus)
                (attachBrands (buildMap (fun b => normKey b.name) brands)
                  (normalizeRows env.jsDate 0 inputRows).1).1
              by_cases hus : ((attachSkus (buildMap skuKeyOf skus)
                  (attachBrands (buildMap (fun b => normKey b.name) brands)
                    (normalizeRows env.jsDate 0 inputRows).1).1).1).isEmpty
              · rw [if_pos hus] at h200 ⊢
                show inputRows.length = 0 +
                  (((normalizeRows env.jsDate 0 inputRows).2 ++
                    (attachBrands (buildMap (fun b => normKey b.name) brands)
                      (normalizeRows env.jsDate 0 inputRows).1).2) ++
                    (attachSkus (buildMap skuKeyOf skus)
                      (attachBrands (buildMap (fun b => normKey b.name) brands)
                        (normalizeRows env.jsDate 0 inputRows).1).1).2).length
                have hnil := List.isEmpty_iff.mp hus
                rw [hnil] at hlen3
                simp only [List.length_nil] at hlen3
                rw [List.length_append, List.length_append]
                omega
              · rw [if_neg hus] at h200 ⊢
                have husable : (((attachSkus (buildMap skuKeyOf skus)
                    (attachBrands (buildMap (fun b => normKey b.name) brands)
                      (normalizeRows env.jsDate 0 inputRows).1).1).1).map
                        fun r => r.barcode).Nodup :=
                  List.Nodup.sublist
                    (attachSkus_barcode_sublist _ _)
                    (List.Nodup.sublist (attachBrands_barcode_sublist _ _) hnd)
                have hcons := batchesAndInsert_conserve env
                  (((normalizeRows env.jsDate 0 inputRows).2 ++
                    (attachBrands (buildMap (fun b => normKey b.name) brands)
                      (normalizeRows env.jsDate 0 inputRows).1).2) ++
                    (attachSkus (buildMap skuKeyOf skus)
                      (attachBrands (buildMap (fun b => normKey b.name) brands)
                        (normalizeRows env.jsDate 0 inputRows).1).1).2)
                  _ husable hhonest h200
                rw [hcons, List.length_append, List.length_append]
                omega
  · rw [if_pos (by rw [Bool.not_eq_true'] at *; simpa using hk)] at h200
    have hfive : (500 : Nat) = 200 := h200
    omega

/-- An honest store for the conservation counterexample: one brand, one
SKU, one existing batch, empty inventory; each insert echoes every
distinct submitted barcode once (ignore-duplicates semantics on an empty
table). -/
def dupEnv : Env :=
  { hasKey := true
    jsDate := fun t => some t
    brandPage := fun part => .ok (.arr ([⟨"B1", "NELL"⟩].filter
      fun b => part.any fun k => normKey k == normKey b.name))
    skuPage := fun part => .ok (.arr ([⟨"S1", "SC1", "B1"⟩].filter
      fun s => part.contains (skuKeyOf s)))
    batchPage := fun part => .ok (.arr ([⟨"T1", "S1", "BN1"⟩].filter
      fun b => part.contains b.batch_no))
    upsert := fun _ => ⟨true, 201, ""⟩
    refetchPage := fun part => .ok (.arr ([⟨"T1", "S1", "BN1"⟩].filter
      fun b => part.contains b.batch_no))
    insert := fun chunk => .ok (.arr ((dedupFirst (chunk.map
      fun r => r.barcode)).map fun bc => ⟨bc⟩)) }

/-- A raw input row resolvable against `dupEnv`. -/
def dupRaw : RawRow :=
  { sku_code := some "SC1", brand_name := some "nell", batch_no := some "BN1",
    barcode := some "X1", date_in := some "2025-01-02" }

/-- Counterexample to C9 as stated: two submitted rows sharing one barcode
produce a 200 response whose inserted count plus full skip-list length is
1, not 2 — the store inserts (and echoes) the barcode once, so both rows
count as echoed and neither is classified as a duplicate. -/
theorem row_conservation_counterexample :
    (onRequestPost dupEnv (.rows [dupRaw, dupRaw])).1.status = 200 ∧
    (onRequestPost dupEnv (.rows [dupRaw, dupRaw])).1.added = 1 ∧
    (onRequestPost dupEnv (.rows [dupRaw, dupRaw])).1.skipped = 0 ∧
    ¬(([dupRaw, dupRaw] : List RawRow).length =
      (onRequestPost dupEnv (.rows [dupRaw, dupRaw])).2.1 +
      (onRequestPost dupEnv (.rows [dupRaw, dupRaw])).2.2.length) := by
  refine ⟨?_, ?_, ?_, ?_⟩ <;> decide

/-- An environment whose insert call always fails, for the
`row_conservation` witness (a failed chunk skips all rows, conserving
the accounting trivially). -/
def errEnv : Env :=
  { dupEnv with insert := fun _ => .error "service unavailable" }

/-- Witness for `row_conservation` at concrete inputs. -/
theorem row_conservation_witness :
    (((normalizeRows errEnv.jsDate 0 [dupRaw]).1.map fun r => r.barcode).Nodup) ∧
    (onRequestPost errEnv (.rows [dupRaw])).1.status = 200 ∧
    ([dupRaw] : List RawRow).length =
      (onRequestPost errEnv (.rows [dupRaw])).2.1 +
      (onRequestPost errEnv (.rows [dupRaw])).2.2.length := by
  refine ⟨by decide, by decide, ?_⟩
  exact row_conservation errEnv [dupRaw] (by decide)
    (fun chunk l h => by cases h) (by decide)

/-! ## Claim C8: idempotence of insert across two calls -/

/-- Modelled from the spec: the external relational store (spec §1
excludes it from the source; §6 specifies its interface).  It holds the
brands, SKUs and batches tables and the set of inventory barcodes;
reads answer filter queries with the matching tuples, and the inventory
write uses ignore-duplicates conflict resolution on the barcode
uniqueness constraint, echoing exactly the rows it actually inserted. -/
structure Store where
  brands : List Brand
  skus : List SkuRow
  batches : List BatchRow
  inventoryBarcodes : List String

/-- Modelled from the spec: the oracle environment a `Store` presents to
the handler — each read filters the corresponding table by the queried
keys (case-insensitive for brand names), the batch upsert succeeds, and
the insert echoes each distinct submitted barcode not already present. -/
def storeEnv (jd : String → Option String) (st : Store) : Env :=
  { hasKey := true
    jsDate := jd
    brandPage := fun part => .ok (.arr (st.brands.filter
      fun b => part.any fun k => normKey k == normKey b.name))
    skuPage := fun part => .ok (.arr (st.skus.filter
      fun s => part.contains (skuKeyOf s)))
    batchPage := fun part => .ok (.arr (st.batches.filter
      fun b => part.contains b.batch_no))
    upsert := fun _ => ⟨true, 201, ""⟩
    refetchPage := fun part => .ok (.arr (st.batches.filter
      fun b => part.contains b.batch_no))
    insert := fun chunk => .ok (.arr ((dedupFirst (chunk.map
      fun r => r.barcode)).filterMap fun bc =>
        if st.inventoryBarcodes.contains bc then none else some ⟨bc⟩)) }

/-- Modelled from the spec: the store state after an insert that
committed one new barcode. -/
def addBarcode (st : Store) (bc : String) : Store :=
  { st with inventoryBarcodes := st.inventoryBarcodes ++ [bc] }

theorem chunksOf_one (C : Nat) (hC : C ≠ 0) (k : α) : chunksOf C [k] = [[k]] := by
  rw [chunksOf_cons C hC,
    List.take_of_length_le (by simp only [List.length_cons, List.length_nil]; omega),
    List.drop_eq_nil_of_le (by simp only [List.length_cons, List.length_nil]; omega)]
  rfl

theorem fetchPages_one (q : List String → Except String (JsonArr α)) (C : Nat)
    (hC : C ≠ 0) (k : String) (l : List α) (h : q [k] = .ok (.arr l)) :
    fetchPages q C [k] = .ok l := by
  rw [fetchPages, chunksOf_one C hC]
  show Except.bind ((q [k]).map fun page => [] ++ page.toList) _ = _
  rw [h]
  show Except.ok l = _
  rfl

theorem buildMap_one (key : V → String) (v : V) (k : String) :
    buildMap key [v] k = if k = key v then some v else none := rfl

/-- Symbolic execution of one call on a single resolvable row: the
handler reduces to the insert tail on the singleton payload. -/
theorem single_row_pipeline (jd : String → Option String) (st : Store) (raw : RawRow)
    (b0 : Brand) (s0 : SkuRow) (bt0 : BatchRow)
    (hval : missingRequired (normalizeOne jd 0 raw) = false)
    (hbrand : st.brands.filter (fun b => [(normalizeOne jd 0 raw).brand_name].any
      fun k => normKey k == normKey b.name) = [b0])
    (hsku : st.skus.filter (fun s =>
      [pairKey b0.id (normalizeOne jd 0 raw).sku_code].contains (skuKeyOf s)) = [s0])
    (hbatch : st.batches.filter (fun b =>
      [(normalizeOne jd 0 raw).batch_no].contains b.batch_no) = [bt0]) :
    onRequestPost (storeEnv jd st) (.rows [raw]) =
      finishInsert (storeEnv jd st) []
        [invRowOf ⟨⟨normalizeOne jd 0 raw, b0.id⟩, s0.id⟩ bt0] := by
  have heqb : normKey (normalizeOne jd 0 raw).brand_name = normKey b0.name := by
    have hmem : b0 ∈ st.brands.filter (fun b => [(normalizeOne jd 0 raw).brand_name].any
        fun k => normKey k == normKey b.name) := by
      rw [hbrand]
      exact List.mem_cons_self _ _
    have := (List.mem_filter.mp hmem).2
    simpa using this
  have heqs : skuKeyOf s0 = pairKey b0.id (normalizeOne jd 0 raw).sku_code := by
    have hmem : s0 ∈ st.skus.filter (fun s =>
        [pairKey b0.id (normalizeOne jd 0 raw).sku_code].contains (skuKeyOf s)) := by
      rw [hsku]
      exact List.mem_cons_self _ _
    have := (List.mem_filter.mp hmem).2
    simpa using this
  have heqt : bt0.batch_no = (normalizeOne jd 0 raw).batch_no := by
    have hmem : bt0 ∈ st.batches.filter (fun b =>
        [(normalizeOne jd 0 raw).batch_no].contains b.batch_no) := by
      rw [hbatch]
      exact List.mem_cons_self _ _
    have := (List.mem_filter.mp hmem).2
    simpa using this
  have h1 : normalizeRows (storeEnv jd st).jsDate 0 [raw]
      = ([normalizeOne jd 0 raw], []) := by
    show normalizeRows jd 0 [raw] = _
    rw [normalizeRows_cons, if_neg (by rw [hval]; simp)]
    rfl
  have hq2 : (storeEnv jd st).brandPage [(normalizeOne jd 0 raw).brand_name]
      = Except.ok (JsonArr.arr [b0]) := by
    show (Except.ok (JsonArr.arr (st.brands.filter fun b =>
        [(normalizeOne jd 0 raw).brand_name].any fun k => normKey k == normKey b.name))
      : Except String (JsonArr Brand)) = Except.ok (JsonArr.arr [b0])
    rw [hbrand]
  have hkeys1 : dedupFirst (((normalizeRows (storeEnv jd st).jsDate 0 [raw]).1).map
      fun r => r.brand_name) = [(normalizeOne jd 0 raw).brand_name] := by
    rw [h1]
    rfl
  have h2 : fetchPages (storeEnv jd st).brandPage BRAND_IN_CHUNK
      [(normalizeOne jd 0 raw).brand_name] = .ok [b0] :=
    fetchPages_one _ BRAND_IN_CHUNK (by decide) _ [b0] hq2
  have hbm : buildMap (fun b => normKey b.name) [b0]
      (normKey (normalizeOne jd 0 raw).brand_name) = some b0 := by
    rw [buildMap_one, if_pos heqb]
  have h3 : attachBrands (buildMap (fun b => normKey b.name) [b0])
      ((normalizeRows (storeEnv jd st).jsDate 0 [raw]).1)
      = ([{ toNormalizedRow := normalizeOne jd 0 raw, brand_id := b0.id }], []) := by
    rw [h1]
    show attachBrands _ [normalizeOne jd 0 raw] = _
    simp only [attachBrands, hbm]
  have hq4 : (storeEnv jd st).skuPage [pairKey b0.id (normalizeOne jd 0 raw).sku_code]
      = Except.ok (JsonArr.arr [s0]) := by
    show (Except.ok (JsonArr.arr (st.skus.filter fun s =>
        [pairKey b0.id (normalizeOne jd 0 raw).sku_code].contains (skuKeyOf s)))
      : Except String (JsonArr SkuRow)) = Except.ok (JsonArr.arr [s0])
    rw [hsku]
  have hkeys2 : dedupFirst (((attachBrands (buildMap (fun b => normKey b.name) [b0])
      ((normalizeRows (storeEnv jd st).jsDate 0 [raw]).1)).1).map
        fun r => pairKey r.brand_id r.sku_code)
      = [pairKey b0.id (normalizeOne jd 0 raw).sku_code] := by
    rw [h3]
    rfl
  have h4 : fetchPages (storeEnv jd st).skuPage SKU_PAIR_CHUNK
      [pairKey b0.id (normalizeOne jd 0 raw).sku_code] = .ok [s0] :=
    fetchPages_one _ SKU_PAIR_CHUNK (by decide) _ [s0] hq4
  have hsm : buildMap skuKeyOf [s0] (pairKey b0.id (normalizeOne jd 0 raw).sku_code)
      = some s0 := by
    rw [buildMap_one, if_pos heqs.symm]
  have h5 : attachSkus (buildMap skuKeyOf [s0])
      ((attachBrands (buildMap (fun b => normKey b.name) [b0])
        ((normalizeRows (storeEnv jd st).jsDate 0 [raw]).1)).1)
      = ([{ toBrandRow := { toNormalizedRow := normalizeOne jd 0 raw, brand_id := b0.id },
            sku_id := s0.id }], []) := by
    rw [h3]
    show attachSkus _ [{ toNormalizedRow := normalizeOne jd 0 raw, brand_id := b0.id }] = _
    simp only [attachSkus, hsm]
  have hq6 : (storeEnv jd st).batchPage [(normalizeOne jd 0 raw).batch_no]
      = Except.ok (JsonArr.arr [bt0]) := by
    show (Except.ok (JsonArr.arr (st.batches.filter fun b =>
        [(normalizeOne jd 0 raw).batch_no].contains b.batch_no))
      : Except String (JsonArr BatchRow)) = Except.ok (JsonArr.arr [bt0])
    rw [hbatch]
  have hkeys3 : dedupFirst (List.map (fun r => r.batch_no)
      ((attachSkus (buildMap skuKeyOf [s0])
        ((attachBrands (buildMap (fun b => normKey b.name) [b0])
          ((normalizeRows (storeEnv jd st).jsDate 0 [raw]).1)).1)).1))
      = [(normalizeOne jd 0 raw).batch_no] := by
    rw [h5]
    rfl
  have h6 : fetchPages (storeEnv jd st).batchPage BATCH_IN_CHUNK
      [(normalizeOne jd 0 raw).batch_no] = .ok [bt0] :=
    fetchPages_one _ BATCH_IN_CHUNK (by decide) _ [bt0] hq6
  have hbtm : buildMap (fun b => b.batch_no) [bt0] (normalizeOne jd 0 raw).batch_no
      = some bt0 := by
    rw [buildMap_one, if_pos heqt.symm]
  have h7 : ∀ ts ea, missingBatchPayload [(normalizeOne jd 0 raw).batch_no]
      (buildMap (fun b => b.batch_no) [bt0]) ts ea = [] := by
    intro ts ea
    rw [missingBatchPayload, List.filterMap_cons, if_pos (by rw [hbtm]; rfl)]
    rfl
  have h8 : ∀ (bNos : List String) (bm : MapStr BatchRow),
      upsertAndRefetch (storeEnv jd st) [] bNos bm = .done bm := fun _ _ => rfl
  have h9 : buildInventoryPayload (buildMap (fun b => b.batch_no) [bt0])
      [{ toBrandRow := { toNormalizedRow := normalizeOne jd 0 raw, brand_id := b0.id },
         sku_id := s0.id }]
      = ([invRowOf ⟨⟨normalizeOne jd 0 raw, b0.id⟩, s0.id⟩ bt0], []) := by
    simp only [buildInventoryPayload]
    rw [show buildMap (fun b => b.batch_no) [bt0]
      ({ toBrandRow := { toNormalizedRow := normalizeOne jd 0 raw, brand_id := b0.id },
         sku_id := s0.id } : UsableRow).batch_no = some bt0 from hbtm]
  rw [onRequestPost.eq_def]
  rw [if_neg (show ¬(!(storeEnv jd st).hasKey) = true from fun h => Bool.noConfusion h)]
  show (if ([raw] : List RawRow).isEmpty = true then _ else _) = _
  rw [if_neg (show ¬([raw] : List RawRow).isEmpty = true from fun h => Bool.noConfusion h)]
  simp only
  rw [if_neg (by rw [h1]; exact fun h => Bool.noConfusion h)]
  rw [hkeys1, h2]
  simp only
  rw [if_neg (by rw [h3]; exact fun h => Bool.noConfusion h)]
  rw [hkeys2, h4]
  simp only
  rw [if_neg (by rw [h5]; exact fun h => Bool.noConfusion h)]
  rw [batchesAndInsert]
  rw [hkeys3, h6]
  simp only
  rw [h7, h8]
  simp only
  rw [h5]
  simp only
  rw [h9]
  simp only
  rw [if_neg (show ¬([invRowOf
    { toBrandRow := { toNormalizedRow := normalizeOne jd 0 raw, brand_id := b0.id },
      sku_id := s0.id } bt0] : List InvRow).isEmpty = true
    from fun h => Bool.noConfusion h)]
  rw [h3, h1]
  rfl

/-- The insert tail on one new row: the echo carries the barcode, so the
call reports one insert and no duplicates. -/
theorem finishInsert_singleton_new (jd : String → Option String) (st : Store)
    (inv : InvRow) (hc : st.inventoryBarcodes.contains inv.barcode = false) :
    finishInsert (storeEnv jd st) [] [inv] =
      ret { inserted := some 1, duplicates_skipped := some 0,
            skippedRows := some [],
            note := some ("Batched mode: preloaded Brands (chunked), preloaded SKUs by " ++
              "(brand_id, sku_code), upserted global batches by batch_no, inserted " ++
              "inventory (chunked).") } 200 1 [] := by
  have hins : (storeEnv jd st).insert [inv] = .ok (.arr [⟨inv.barcode⟩]) := by
    show (Except.ok (JsonArr.arr ((dedupFirst ([inv].map fun r => r.barcode)).filterMap
        fun bc => if st.inventoryBarcodes.contains bc then none else some ⟨bc⟩))
      : Except String (JsonArr Echo)) = Except.ok (JsonArr.arr [⟨inv.barcode⟩])
    show (Except.ok (JsonArr.arr ([inv.barcode].filterMap
        fun bc => if st.inventoryBarcodes.contains bc then none else some ⟨bc⟩))
      : Except String (JsonArr Echo)) = Except.ok (JsonArr.arr [⟨inv.barcode⟩])
    rw [List.filterMap_cons, if_neg (by rw [hc]; exact fun h => Bool.noConfusion h)]
    rfl
  have hfilter : ([inv].filter fun row =>
      !(([inv.barcode] : List String).contains row.barcode)) = [] := by
    simp
  have hstep : processChunk (storeEnv jd st).insert ⟨0, 0, []⟩ [inv] = ⟨1, 0, []⟩ := by
    simp only [processChunk, hins, JsonArr.toList, List.map_cons, List.map_nil, hfilter,
      List.length_cons, List.length_nil, List.append_nil, Nat.add_zero, Nat.zero_add]
  have hip : insertPhase (storeEnv jd st).insert [inv] = ⟨1, 0, []⟩ := by
    rw [insertPhase, chunksOf_one INVENTORY_CHUNK_SIZE (by decide),
      List.foldl_cons, List.foldl_nil, hstep]
  rw [finishInsert, hip]
  rfl

/-- The insert tail on an already-present row: the echo is empty, so the
call reports no insert and one duplicate skip. -/
theorem finishInsert_singleton_dup (jd : String → Option String) (st : Store)
    (inv : InvRow) (hc : st.inventoryBarcodes.contains inv.barcode = true) :
    finishInsert (storeEnv jd st) [] [inv] =
      ret { inserted := some 0, duplicates_skipped := some 1,
            skippedRows := some [skipOfInv inv
              ("❌ Barcode already exists (duplicate): \"" ++ inv.barcode ++ "\"")],
            note := some ("Batched mode: preloaded Brands (chunked), preloaded SKUs by " ++
              "(brand_id, sku_code), upserted global batches by batch_no, inserted " ++
              "inventory (chunked).") } 200 0
        [skipOfInv inv ("❌ Barcode already exists (duplicate): \"" ++ inv.barcode ++ "\"")] := by
  have hins : (storeEnv jd st).insert [inv] = .ok (.arr []) := by
    show (Except.ok (JsonArr.arr ([inv.barcode].filterMap
        fun bc => if st.inventoryBarcodes.contains bc then none else some ⟨bc⟩))
      : Except String (JsonArr Echo)) = Except.ok (JsonArr.arr [])
    rw [List.filterMap_cons, if_pos hc]
    rfl
  have hfilter : ([inv].filter fun row =>
      !(([] : List String).contains row.barcode)) = [inv] := by
    simp
  have hstep : processChunk (storeEnv jd st).insert ⟨0, 0, []⟩ [inv]
      = ⟨0, 1, [skipOfInv inv
          ("❌ Barcode already exists (duplicate): \"" ++ inv.barcode ++ "\"")]⟩ := by
    simp only [processChunk, hins, JsonArr.toList, List.map_cons, List.map_nil, hfilter,
      List.length_cons, List.length_nil, List.append_nil, List.nil_append,
      Nat.add_zero, Nat.zero_add]
  have hip : insertPhase (storeEnv jd st).insert [inv]
      = ⟨0, 1, [skipOfInv inv
          ("❌ Barcode already exists (duplicate): \"" ++ inv.barcode ++ "\"")]⟩ := by
    rw [insertPhase, chunksOf_one INVENTORY_CHUNK_SIZE (by decide),
      List.foldl_cons, List.foldl_nil, hstep]
  rw [finishInsert, hip]
  rfl

/-- Modelled from the spec: concrete date oracle for the idempotence witness. -/
def idemJd : String → Option String := fun s => some s

/-- Modelled from the spec: concrete input row for the idempotence witness. -/
def idemRaw : RawRow :=
  { sku_code := some "SC1", brand_name := some "NELL", batch_no := some "BN1",
    barcode := some "X9", date_in := some "2025-01-02" }

/-- Modelled from the spec: concrete store for the idempotence witness. -/
def idemStore : Store :=
  { brands := [⟨"B1", "NELL"⟩], skus := [⟨"S1", "SC1", "B1"⟩],
    batches := [⟨"T1", "S1", "BN1"⟩], inventoryBarcodes := [] }

/-- C8 — Idempotence of insert: a well-formed row whose brand, SKU and batch
each resolve uniquely in the store and whose barcode is not yet present is
inserted on the first call (`inserted = 1`, `duplicates_skipped = 0`,
`added = 1`); submitting the identical row again after the store has recorded
the barcode yields `inserted = 0` and `duplicates_skipped = 1`. -/
theorem insert_idempotence (jd : String → Option String) (st : Store) (raw : RawRow)
    (b0 : Brand) (s0 : SkuRow) (bt0 : BatchRow)
    (hval : missingRequired (normalizeOne jd 0 raw) = false)
    (hbrand : st.brands.filter (fun b => [(normalizeOne jd 0 raw).brand_name].any
      fun k => normKey k == normKey b.name) = [b0])
    (hsku : st.skus.filter (fun s =>
      [pairKey b0.id (normalizeOne jd 0 raw).sku_code].contains (skuKeyOf s)) = [s0])
    (hbatch : st.batches.filter (fun b =>
      [(normalizeOne jd 0 raw).batch_no].contains b.batch_no) = [bt0])
    (hnew : st.inventoryBarcodes.contains (normalizeOne jd 0 raw).barcode = false) :
    (onRequestPost (storeEnv jd st) (.rows [raw])).1.body.inserted = some 1 ∧
    (onRequestPost (storeEnv jd st) (.rows [raw])).1.body.duplicates_skipped = some 0 ∧
    (onRequestPost (storeEnv jd st) (.rows [raw])).1.added = 1 ∧
    (onRequestPost (storeEnv jd (addBarcode st (normalizeOne jd 0 raw).barcode))
        (.rows [raw])).1.body.inserted = some 0 ∧
    (onRequestPost (storeEnv jd (addBarcode st (normalizeOne jd 0 raw).barcode))
        (.rows [raw])).1.body.duplicates_skipped = some 1 := by
  have h1 := single_row_pipeline jd st raw b0 s0 bt0 hval hbrand hsku hbatch
  have h2 := single_row_pipeline jd (addBarcode st (normalizeOne jd 0 raw).barcode)
    raw b0 s0 bt0 hval hbrand hsku hbatch
  have hfin1 := finishInsert_singleton_new jd st
    (invRowOf ⟨⟨normalizeOne jd 0 raw, b0.id⟩, s0.id⟩ bt0) hnew
  have hc2 : (addBarcode st (normalizeOne jd 0 raw).barcode).inventoryBarcodes.contains
      (invRowOf ⟨⟨normalizeOne jd 0 raw, b0.id⟩, s0.id⟩ bt0).barcode = true := by
    show (st.inventoryBarcodes ++ [(normalizeOne jd 0 raw).barcode]).contains
      (normalizeOne jd 0 raw).barcode = true
    simp
  have hfin2 := finishInsert_singleton_dup jd (addBarcode st (normalizeOne jd 0 raw).barcode)
    (invRowOf ⟨⟨normalizeOne jd 0 raw, b0.id⟩, s0.id⟩ bt0) hc2
  rw [h1, hfin1, h2, hfin2]
  exact ⟨rfl, rfl, rfl, rfl, rfl⟩

theorem insert_idempotence_witness :
    (onRequestPost (storeEnv idemJd idemStore) (.rows [idemRaw])).1.body.inserted
      = some 1 ∧
    (onRequestPost (storeEnv idemJd (addBarcode idemStore
        (normalizeOne idemJd 0 idemRaw).barcode))
      (.rows [idemRaw])).1.body.duplicates_skipped = some 1 := by
  have h := insert_idempotence idemJd idemStore idemRaw
    ⟨"B1", "NELL"⟩ ⟨"S1", "SC1", "B1"⟩ ⟨"T1", "S1", "BN1"⟩
    (by decide) (by decide) (by decide) (by decide) (by decide)
  exact ⟨h.1, h.2.2.2.2⟩

end Upload
